import Mathlib

/-!
Verification development for the xpra scroll-motion detector
(`xpra.server.window.motion`, exercised by
`tests/unittests/unit/server/motion_test.py`) and for
`xpra.client.base.encode.EncodeClient`.

The motion module's own source is not part of the excerpt, so the detector
is modelled from the specification (purpose, data model, matcher and
aggregator of the spec), with the index/sign convention of the matcher
fixed to agree with the repository's unit tests, which are part of the
excerpt and pin the observable behaviour.
-/

namespace XpraMotion

/-- Modelled from the spec: `MIN_LINE_COUNT` is the module-level constant
giving the minimum run length honoured by the matcher; "a small integer,
typically 2 or 3".  The value 2 is consistent with every expectation of the
unit tests. -/
def MIN_LINE_COUNT : Nat := 2

/-- Modelled from the spec: the two error kinds of the detector
(`InvalidGeometry` for dimension/length mismatches, `InvalidInput` for
`None`/absent arrays). -/
inductive MotionError where
  | InvalidGeometry
  | InvalidInput
deriving DecidableEq, Repr

/-- Modelled from the spec: the detector state.  A rectangle fixed at
construction, the `previous` and `current` row-hash vectors (absent until
populated), and the match table rebuilt by `calculate` (absent while fewer
than two frames have been ingested).  The match table maps each scroll
distance to its list of `(start, length)` runs, runs being indexed by the
source (previous-frame) row. -/
structure ScrollData where
  x : Nat
  y : Nat
  w : Nat
  h : Nat
  previous : Option (List Nat)
  current : Option (List Nat)
  matchTable : Option (List (Int × List (Nat × Nat)))
deriving DecidableEq, Repr

/-- Modelled from the spec: constructing a detector bound to a rectangle;
both hash vectors start absent and no match table exists yet. -/
def ScrollData.new (x y w h : Nat) : ScrollData :=
  ⟨x, y, w, h, none, none, none⟩

/-- Modelled from the spec: `test_update` ingests a caller-supplied hash
vector directly.  `None`/absent input fails with `InvalidInput`; a vector
whose length differs from the constructed `h` fails with `InvalidGeometry`;
otherwise `previous ← current; current ← hashes` atomically. -/
def ScrollData.test_update (sd : ScrollData) (hashes : Option (List Nat)) :
    Except MotionError ScrollData :=
  match hashes with
  | none => .error .InvalidInput
  | some hs =>
    if hs.length = sd.h then
      .ok { sd with previous := sd.current, current := some hs }
    else
      .error .InvalidGeometry

/-- Accumulate the maximal contiguous runs of `true` values of a boolean
row sequence.  `i0` is the absolute index of the head of `bs`; `acc` is the
currently open run, if any.  This is the run-accumulation loop of the
spec's matcher (open a run on a successful comparison, close it on a
failure and at end-of-column). -/
def runsAux : List Bool → Nat → Option (Nat × Nat) → List (Nat × Nat)
  | [], _, none => []
  | [], _, some r => [r]
  | b :: bs, i, none =>
    if b then runsAux bs (i + 1) (some (i, 1)) else runsAux bs (i + 1) none
  | b :: bs, i, some r =>
    if b then runsAux bs (i + 1) (some (r.1, r.2 + 1))
    else r :: runsAux bs (i + 1) none

/-- Whether row `i` lies inside one of the runs of `runs`. -/
def coveredBy (runs : List (Nat × Nat)) (i : Nat) : Bool :=
  runs.any (fun r => decide (r.1 ≤ i) && decide (i < r.1 + r.2))

/-- Modelled from the spec: the per-distance comparison column.  For
distance `d` the matcher compares the previous frame's row `i` with the
current frame's row `i + d` (skipping rows where `i + d` falls outside the
frame); this is the orientation pinned by the repository's unit tests:
`previous[i] == current[i + d]`, a positive distance meaning the content
moved to larger row indices.  Returns the absolute index of the first
compared row together with the per-row comparison outcomes. -/
def matchBools (prev cur : List Nat) (d : Int) : Nat × List Bool :=
  if 0 ≤ d then
    (0, (prev.zip (cur.drop d.toNat)).map (fun pc => decide (pc.1 = pc.2)))
  else
    ((-d).toNat,
      ((prev.drop (-d).toNat).zip cur).map (fun pc => decide (pc.1 = pc.2)))

/-- The raw run table of one candidate distance: maximal contiguous runs of
successful comparisons, before any filtering. -/
def rawRuns (prev cur : List Nat) (d : Int) : List (Nat × Nat) :=
  runsAux (matchBools prev cur d).2 (matchBools prev cur d).1 none

/-- Number of rows matched at distance `d` before any filtering. -/
def rawMatchCount (prev cur : List Nat) (d : Int) : Nat :=
  (matchBools prev cur d).2.count true

/-- Modelled from the spec: a "repeat" row has the same hash as an
immediate neighbour (rows of a flat band). -/
def isRepeatRow (a : List Nat) (i : Nat) : Bool :=
  decide (i < a.length) &&
    ((decide (0 < i) && decide (a.getD i 0 = a.getD (i - 1) 0)) ||
     (decide (i + 1 < a.length) && decide (a.getD i 0 = a.getD (i + 1) 0)))

/-- Whether all source rows of the run `(s, n)` are repeat rows of the
previous frame. -/
def allRepeatRun (prev : List Nat) (s n : Nat) : Bool :=
  (List.range n).all (fun k => isRepeatRow prev (s + k))

/-- Modelled from the spec: the filtered run table of one candidate
distance: runs shorter than `MIN_LINE_COUNT` are discarded, and at a
non-zero distance a run consisting entirely of repeat rows of the previous
frame (a flat band, which matches every distance trivially) is dropped. -/
def runsForDistance (prev cur : List Nat) (d : Int) : List (Nat × Nat) :=
  let sized := (rawRuns prev cur d).filter (fun r => decide (MIN_LINE_COUNT ≤ r.2))
  if d = 0 then sized
  else sized.filter (fun r => !allRepeatRun prev r.1 r.2)

/-- Modelled from the spec: `calculate(max_distance)` walks every candidate
distance `d` in `[-D, D]`, `D = min(max_distance, h - 1)`, and stores the
per-distance filtered run table (distances whose run list is empty carry no
information and are not stored).  Before two frames are available it is a
no-op leaving no match table. -/
def ScrollData.calculate (sd : ScrollData) (max_distance : Nat) : ScrollData :=
  match sd.previous, sd.current with
  | some prev, some cur =>
    let D := min max_distance (sd.h - 1)
    let ds := (List.range (2 * D + 1)).map (fun (k : Nat) => (k : Int) - (D : Int))
    let tbl := (ds.map (fun d => (d, runsForDistance prev cur d))).filter
      (fun e => !e.2.isEmpty)
    { sd with matchTable := some tbl }
  | _, _ => { sd with matchTable := none }

/-- Total matched line count of a run list. -/
def totalRuns (runs : List (Nat × Nat)) : Nat :=
  (runs.map (fun r => r.2)).sum

/-- Sign rank used by the aggregator's tie-break: a positive (or zero)
distance is preferred over a negative one of the same magnitude. -/
def signRank (d : Int) : Nat :=
  if 0 ≤ d then 0 else 1

/-- Modelled from the spec: the aggregator's distance order: descending
total line count, ties broken by smaller `|d|`, then positive preferred
over negative. -/
def DistLE (a b : Int × List (Nat × Nat)) : Prop :=
  totalRuns b.2 < totalRuns a.2 ∨
    (totalRuns a.2 = totalRuns b.2 ∧
      (a.1.natAbs < b.1.natAbs ∨
        (a.1.natAbs = b.1.natAbs ∧ signRank a.1 ≤ signRank b.1)))

instance : DecidableRel DistLE := fun a b => by
  unfold DistLE
  infer_instance

/-- The sub-runs of run `r` whose rows are not yet claimed in the bitmap `c`. -/
def claimRun (c : Nat → Bool) (r : Nat × Nat) : List (Nat × Nat) :=
  runsAux ((List.range r.2).map (fun k => !c (r.1 + k))) r.1 none

/-- Mark the rows of run `r` as claimed. -/
def markRun (c : Nat → Bool) (r : Nat × Nat) : Nat → Bool :=
  fun i => c i || (decide (r.1 ≤ i) && decide (i < r.1 + r.2))

/-- Modelled from the spec: claim one distance's runs against the bitmap:
for each run keep the sub-runs of still-unclaimed rows and mark the run's
rows as claimed. -/
def claimDistance (c : Nat → Bool) : List (Nat × Nat) → (Nat → Bool) × List (Nat × Nat)
  | [] => (c, [])
  | r :: rest =>
    let subs := claimRun c r
    let p := claimDistance (markRun c r) rest
    (p.1, subs ++ p.2)

/-- Modelled from the spec: walk the distances in aggregation order,
claiming rows greedily; a distance is emitted only if some sub-run of its
rows survives. -/
def claimWalk (c : Nat → Bool) :
    List (Int × List (Nat × Nat)) → (Nat → Bool) × List (Int × List (Nat × Nat))
  | [] => (c, [])
  | e :: rest =>
    let p := claimDistance c e.2
    let q := claimWalk p.1 rest
    (q.1, if p.2.isEmpty then q.2 else (e.1, p.2) :: q.2)

/-- Modelled from the spec: `get_scroll_values(min_hits)` sorts the match
table by the aggregation order, walks it claiming each row at most once,
discards distances whose post-claim total is below `min_hits`, and reports
the maximal runs of still-unclaimed rows as `non_scrolls`.  In the NotReady
state it returns empty structures. -/
def ScrollData.get_scroll_values (sd : ScrollData) (min_hits : Nat) :
    List (Int × List (Nat × Nat)) × List (Nat × Nat) :=
  match sd.matchTable with
  | none => ([], [])
  | some tbl =>
    let sorted := List.insertionSort DistLE tbl
    let p := claimWalk (fun _ => false) sorted
    let scrolls := p.2.filter (fun e => decide (min_hits ≤ totalRuns e.2))
    let ns := runsAux ((List.range sd.h).map (fun i => !p.1 i)) 0 none
    (scrolls, ns)

/-- Modelled from the spec: `get_best_match()` returns the first distance
of the aggregation order together with its total line count, or `(0, 0)`
when no runs survive. -/
def ScrollData.get_best_match (sd : ScrollData) : Int × Nat :=
  match sd.matchTable with
  | none => (0, 0)
  | some tbl =>
    match List.insertionSort DistLE tbl with
    | [] => (0, 0)
    | e :: _ => if totalRuns e.2 = 0 then (0, 0) else (e.1, totalRuns e.2)

/-- The test driver of `motion_test.py`: build a detector for the rectangle
`(0, 0, 1, len(a1))`, ingest both hash vectors, `calculate`, and return the
scroll values. -/
def calculate_distances (a1 a2 : List Nat) (min_hits max_distance : Nat) :
    Except MotionError (List (Int × List (Nat × Nat)) × List (Nat × Nat)) :=
  Except.bind ((ScrollData.new 0 0 1 a1.length).test_update (some a1)) (fun sd1 =>
    Except.bind (sd1.test_update (some a2)) (fun sd2 =>
      Except.ok ((sd2.calculate max_distance).get_scroll_values min_hits)))

/-- `[s, s+1, ..., s+n-1]`, the arithmetic hash vectors of the tests. -/
def seqFrom (s : Nat) : Nat → List Nat
  | 0 => []
  | n + 1 => s :: seqFrom (s + 1) n

/-- Whether the detector, fed `a1` then `a2`, reports distance `d` with run
lengths summing to `c`. -/
def reportsB (a1 a2 : List Nat) (min_hits max_distance : Nat) (d : Int) (c : Nat) : Bool :=
  match calculate_distances a1 a2 min_hits max_distance with
  | .error _ => false
  | .ok p =>
    match p.1.lookup d with
    | none => false
    | some runs => decide (totalRuns runs = c)

/-- Row `i` lies inside run `r`. -/
def RowIn (i : Nat) (r : Nat × Nat) : Prop :=
  r.1 ≤ i ∧ i < r.1 + r.2

/-- Two runs cover no common row. -/
def RunsDisjoint (r1 r2 : Nat × Nat) : Prop :=
  r1.1 + r1.2 ≤ r2.1 ∨ r2.1 + r2.2 ≤ r1.1

/-- `r'` is a sub-interval of `r`. -/
def SubRunOf (r' r : Nat × Nat) : Prop :=
  r.1 ≤ r'.1 ∧ r'.1 + r'.2 ≤ r.1 + r.2

/-- All runs of a scrolls table, in emission order. -/
def flatRuns (l : List (Int × List (Nat × Nat))) : List (Nat × Nat) :=
  (l.map (fun e => e.2)).flatten

/-- First hash vector of the `test_csum_data` regression fixture (length 136,
with bands of the repeated hash 14669207905734636057). -/
def csumA1 : List Nat := [
  5992220345606009987, 15040563112965825180, 420530012284267555, 3380071419019115782, 14243596304267993264, 834861281570233459, 10803583843784306120, 1379296002677236226,
  11874402007024898787, 18061820378193118025, 14669207905734636057, 14669207905734636057, 14669207905734636057, 14669207905734636057, 14669207905734636057, 14669207905734636057,
  14669207905734636057, 14669207905734636057, 6048597477520792617, 2736806572525204051, 16630099595908746458, 10194355114249600963, 16726784880639428445, 10866892264854763364,
  6367321356510949102, 16626509354687956371, 6309605599425761357, 6893409879058778343, 5414245501850544038, 10339135854757169820, 8701041795744152980, 3604633436491088815,
  9865399393235410477, 10031306284568036792, 14669207905734636057, 14669207905734636057, 14669207905734636057, 14669207905734636057, 14669207905734636057, 14669207905734636057,
  14669207905734636057, 14669207905734636057, 11266963446837574547, 17157005122993541799, 5218869126146608853, 13274228147453099388, 16342723934713827717, 2435034235422505275,
  3689766606612767057, 13721141386368216492, 14859793948180065358, 6883776362280179367, 14582348771255332968, 15418692344756373599, 10241123668249748621, 197976484773286461,
  14610077842739908751, 9629342716869811747, 14669207905734636057, 14669207905734636057, 14669207905734636057, 14669207905734636057, 14669207905734636057, 14669207905734636057,
  14669207905734636057, 14669207905734636057, 6301677547777858738, 13481745547040629090, 11082728931134194933, 3515047519092751608, 17530992646520472518, 11525573497958613731,
  6186650688264051723, 10053681394182111520, 7507461626261938488, 3136410141592758381, 18320341500820189028, 7224279069641644876, 76220613438872403, 12174575413544881100,
  7769327179604108765, 4993163530803732307, 14669207905734636057, 14669207905734636057, 14669207905734636057, 14669207905734636057, 14669207905734636057, 14669207905734636057,
  14669207905734636057, 14669207905734636057, 1011212212406598056, 12369511552952147752, 17332471340354818353, 5562967289984763417, 7276816103432910616, 9095502394548196500,
  3966866363266810705, 15115893782344445994, 2470115778756702218, 11300572931034497831, 13356453083734411092, 12682463388000998283, 12461900100761490812, 16565659067973398797,
  16700371844333341655, 13475749720883007409, 14669207905734636057, 14669207905734636057, 14669207905734636057, 14669207905734636057, 15095743182479501355, 16652551598896547263,
  18117428461752083731, 16517651160080181273, 16482769665263024512, 16482769665263024512, 16482769665263024512, 16482769665263024512, 16482769665263024512, 16482769665263024512,
  16482769665263024512, 16482769665263024512, 16482769665263024512, 16482769665263024512, 2620400469557574299, 7552116755125697612, 3191732720857892986, 15697817096682717297,
  14669207905734636057, 14669207905734636057, 14669207905734636057, 14669207905734636057, 14669207905734636057, 14669207905734636057, 14669207905734636057, 14669207905734636057]

/-- Second hash vector of the `test_csum_data` regression fixture. -/
def csumA2 : List Nat := [
  16517651160080181273, 16482769665263024512, 16482769665263024512, 16482769665263024512, 16482769665263024512, 16482769665263024512, 16482769665263024512, 16482769665263024512,
  16482769665263024512, 16482769665263024512, 16482769665263024512, 2620400469557574299, 7552116755125697612, 3191732720857892986, 15697817096682717297, 14669207905734636057,
  14669207905734636057, 14669207905734636057, 14669207905734636057, 14669207905734636057, 14669207905734636057, 14669207905734636057, 14669207905734636057, 14669207905734636057,
  14669207905734636057, 7425237873317005741, 15881577514219781533, 5244943483479698162, 1645884179624549962, 6833306483329956671, 3142507118889544939, 14496593126061659900,
  4782446320116037220, 11121580325383588737, 5128902123802403342, 14539804846999948736, 3999126996485638007, 6071163207581089360, 275311871111368509, 1419512211527079444,
  16496147506624837932, 9366935943282992292, 16641602392096942222, 5312414525355881355, 6512670471206739810, 14669207905734636057, 14669207905734636057, 9515221130600033946,
  14669207905734636057, 14669207905734636057, 14669207905734636057, 14669207905734636057, 14669207905734636057, 14669207905734636057, 14669207905734636057, 14669207905734636057,
  16962147477217322879, 17777684172941730501, 5134598006302276024, 4495650412094508491, 14496320858648784912, 5882882193233282408, 13142401013874562815, 17213868142308207279,
  5589927236057965940, 4529401611344340209, 3205874171513572790, 9555164747562437240, 14669207905734636057, 14669207905734636057, 14669207905734636057, 9080427549593249618,
  14669207905734636057, 14669207905734636057, 14669207905734636057, 14669207905734636057, 14669207905734636057, 14669207905734636057, 14669207905734636057, 8165205005918492527,
  13352578771313229684, 11590125678725701957, 2006171165294962460, 5731472049560910928, 7815231195191982982, 5992220345606009987, 15040563112965825180, 420530012284267555,
  3380071419019115782, 14243596304267993264, 834861281570233459, 10803583843784306120, 1379296002677236226, 11874402007024898787, 18061820378193118025, 14669207905734636057,
  14669207905734636057, 14669207905734636057, 14669207905734636057, 14669207905734636057, 14669207905734636057, 14669207905734636057, 14669207905734636057, 6048597477520792617,
  2736806572525204051, 16630099595908746458, 10194355114249600963, 16726784880639428445, 10866892264854763364, 6367321356510949102, 16626509354687956371, 6309605599425761357,
  6893409879058778343, 5414245501850544038, 10339135854757169820, 8701041795744152980, 3604633436491088815, 9865399393235410477, 10031306284568036792, 14669207905734636057,
  14669207905734636057, 14669207905734636057, 14669207905734636057, 14669207905734636057, 14669207905734636057, 14669207905734636057, 14669207905734636057, 11266963446837574547,
  17157005122993541799, 5218869126146608853, 13274228147453099388, 16342723934713827717, 2435034235422505275, 3689766606612767057, 13721141386368216492, 14859793948180065358]

/-- The `test_csum_data` pipeline: rectangle `(0, 0, 1050, 136)`, both
fixture vectors ingested, `calculate(1000)`, then the best match and the
scroll values at the default `min_hits = 2`. -/
def csumPipeline :
    Except MotionError ((Int × Nat) × (List (Int × List (Nat × Nat)) × List (Nat × Nat))) :=
  Except.bind ((ScrollData.new 0 0 1050 136).test_update (some csumA1)) (fun sd1 =>
    Except.bind (sd1.test_update (some csumA2)) (fun sd2 =>
      Except.ok ((sd2.calculate 1000).get_best_match, (sd2.calculate 1000).get_scroll_values 2)))

/-- The regression fixture's expected observations: non-empty `non_scrolls`,
a best match of at least `MIN_LINE_COUNT` lines, and the bounds invariant
for every claimed run. -/
def csumCheck : Bool :=
  match csumPipeline with
  | .error _ => false
  | .ok r =>
    !r.2.2.isEmpty && decide (MIN_LINE_COUNT ≤ r.1.2) &&
      r.2.1.all (fun e => e.2.all (fun run =>
        decide (0 ≤ (run.1 : Int) + e.1) &&
        decide ((run.1 : Int) + e.1 + run.2 ≤ 136) &&
        decide (run.1 + run.2 ≤ 136)))

end XpraMotion

namespace XpraEncode

/-- The Python-level error raised by `EncodeClient.__init__` when no
filenames are supplied. -/
inductive PyError where
  | ValueError
deriving DecidableEq, Repr

/-- The options object consumed by `EncodeClient.__init__`
(`options.encoding`, `options.quality`, `options.min_quality`,
`options.speed`, `options.min_speed` from `xpra/client/base/encode.py`). -/
structure EncodeOptions where
  encoding : String
  quality : Int
  min_quality : Int
  speed : Int
  min_speed : Int
deriving DecidableEq, Repr

/-- The `encoding_options` dictionary built by `EncodeClient.__init__`:
the fixed `options`/`core` tuples, the `setting` from the options, and the
quality/speed attributes included only when their value is positive. -/
structure EncodingOptionsDict where
  options : List String
  core : List String
  setting : String
  quality : Option Int
  min_quality : Option Int
  speed : Option Int
  min_speed : Option Int
deriving DecidableEq, Repr

/-- The state established by `EncodeClient.__init__`: the filenames list
(copied in order by `list(filenames)`) and the `encoding_options`
dictionary. -/
structure EncodeClient where
  filenames : List String
  encoding_options : EncodingOptionsDict
deriving DecidableEq, Repr

/-- `EncodeClient.__init__`: raises `ValueError` when `filenames` is empty
(before any other initialization), otherwise stores the filenames in the
given order and builds `encoding_options` with `("png", "jpeg")` as the
`options`/`core` tuples and each quality/speed attribute present only when
its configured value is positive. -/
def EncodeClient.init (options : EncodeOptions) (filenames : List String) :
    Except PyError EncodeClient :=
  if filenames.isEmpty then Except.error PyError.ValueError
  else Except.ok
    { filenames := filenames,
      encoding_options :=
        { options := [ "png", "jpeg" ],
          core := [ "png", "jpeg" ],
          setting := options.encoding,
          quality := if 0 < options.quality then some options.quality else none,
          min_quality := if 0 < options.min_quality then some options.min_quality else none,
          speed := if 0 < options.speed then some options.speed else none,
          min_speed := if 0 < options.min_speed then some options.min_speed else none } }

end XpraEncode

namespace XpraMotion

/-- Invariant of the open-run accumulator of `runsAux`: the run, if open,
ends exactly at the cursor and is non-empty. -/
def AccWf : Option (Nat × Nat) → Nat → Prop
  | none, _ => True
  | some r, i0 => r.1 + r.2 = i0 ∧ 1 ≤ r.2

/-- Smallest row index a run emitted by `runsAux` can start at. -/
def accLow : Option (Nat × Nat) → Nat → Nat
  | none, i0 => i0
  | some r, _ => r.1

/-- Length of the open run of the accumulator. -/
def accLen : Option (Nat × Nat) → Nat
  | none => 0
  | some r => r.2

theorem runsAux_mem : ∀ (bs : List Bool) (i0 : Nat) (acc : Option (Nat × Nat)),
    AccWf acc i0 → ∀ r ∈ runsAux bs i0 acc,
    1 ≤ r.2 ∧ accLow acc i0 ≤ r.1 ∧ r.1 + r.2 ≤ i0 + bs.length := by
  intro bs
  induction bs with
  | nil =>
    intro i0 acc hw r hr
    cases acc with
    | none => simp [runsAux] at hr
    | some a =>
      simp [runsAux] at hr
      subst hr
      simp [AccWf] at hw
      simp [accLow]
      omega
  | cons b bs ih =>
    intro i0 acc hw r hr
    cases acc with
    | none =>
      cases b with
      | true =>
        rw [show runsAux (true :: bs) i0 none = runsAux bs (i0 + 1) (some (i0, 1)) from rfl] at hr
        have h := ih (i0 + 1) (some (i0, 1)) (by simp [AccWf]) r hr
        simp [accLow] at h ⊢
        omega
      | false =>
        rw [show runsAux (false :: bs) i0 none = runsAux bs (i0 + 1) none from rfl] at hr
        have h := ih (i0 + 1) none trivial r hr
        simp [accLow] at h ⊢
        omega
    | some a =>
      simp [AccWf] at hw
      cases b with
      | true =>
        rw [show runsAux (true :: bs) i0 (some a) =
            runsAux bs (i0 + 1) (some (a.1, a.2 + 1)) from rfl] at hr
        have h := ih (i0 + 1) (some (a.1, a.2 + 1)) (by simp [AccWf]; omega) r hr
        simp [accLow] at h ⊢
        omega
      | false =>
        rw [show runsAux (false :: bs) i0 (some a) =
            a :: runsAux bs (i0 + 1) none from rfl, List.mem_cons] at hr
        rcases hr with hr | hr
        · subst hr
          simp [accLow]
          omega
        · have h := ih (i0 + 1) none trivial r hr
          simp [accLow] at h ⊢
          omega

theorem exists_getD_cons (b : Bool) (bs : List Bool) (i0 j : Nat) :
    (∃ k, k < (b :: bs).length ∧ j = i0 + k ∧ (b :: bs).getD k false = true) ↔
      ((j = i0 ∧ b = true) ∨
        (∃ k, k < bs.length ∧ j = (i0 + 1) + k ∧ bs.getD k false = true)) := by
  constructor
  · rintro ⟨k, hk, hj, hv⟩
    cases k with
    | zero =>
      left
      refine ⟨by omega, ?_⟩
      simpa [List.getD_cons_zero] using hv
    | succ m =>
      right
      refine ⟨m, by simpa using hk, by omega, ?_⟩
      simpa [List.getD_cons_succ] using hv
  · rintro (⟨hj, hb⟩ | ⟨k, hk, hj, hv⟩)
    · exact ⟨0, by simp, by omega, by simpa [List.getD_cons_zero] using hb⟩
    · exact ⟨k + 1, by simp; omega, by omega, by simpa [List.getD_cons_succ] using hv⟩

theorem runsAux_covered : ∀ (bs : List Bool) (i0 : Nat) (acc : Option (Nat × Nat)),
    AccWf acc i0 → ∀ j,
    (coveredBy (runsAux bs i0 acc) j = true ↔
      ((∃ s0 n0, acc = some (s0, n0) ∧ s0 ≤ j ∧ j < i0) ∨
        (∃ k, k < bs.length ∧ j = i0 + k ∧ bs.getD k false = true))) := by
  intro bs
  induction bs with
  | nil =>
    intro i0 acc hw j
    cases acc with
    | none =>
      simp [runsAux, coveredBy]
    | some a =>
      rcases a with ⟨s0, n0⟩
      obtain ⟨ha1, ha2⟩ : s0 + n0 = i0 ∧ 1 ≤ n0 := hw
      constructor
      · intro hcov
        have hin : s0 ≤ j ∧ j < s0 + n0 := by
          simpa [runsAux, coveredBy] using hcov
        exact Or.inl ⟨s0, n0, rfl, hin.1, by omega⟩
      · rintro (⟨s1, n1, heq, h1, h2⟩ | ⟨k, hk, _⟩)
        · cases heq
          simp [runsAux, coveredBy]
          omega
        · exact absurd hk (by simp)
  | cons b bs ih =>
    intro i0 acc hw j
    cases acc with
    | none =>
      cases b with
      | true =>
        rw [show runsAux (true :: bs) i0 none = runsAux bs (i0 + 1) (some (i0, 1)) from rfl,
          ih (i0 + 1) (some (i0, 1)) (by exact ⟨rfl, le_refl 1⟩) j, exists_getD_cons]
        constructor
        · rintro (⟨s1, n1, heq, h1, h2⟩ | h)
          · cases heq
            exact Or.inr (Or.inl ⟨by omega, rfl⟩)
          · exact Or.inr (Or.inr h)
        · rintro (⟨s1, n1, heq, _, _⟩ | (⟨hj, _⟩ | h))
          · exact Option.noConfusion heq
          · exact Or.inl ⟨i0, 1, rfl, by omega, by omega⟩
          · exact Or.inr h
      | false =>
        rw [show runsAux (false :: bs) i0 none = runsAux bs (i0 + 1) none from rfl,
          ih (i0 + 1) none trivial j, exists_getD_cons]
        constructor
        · rintro (⟨s1, n1, heq, _, _⟩ | h)
          · exact Option.noConfusion heq
          · exact Or.inr (Or.inr h)
        · rintro (⟨s1, n1, heq, _, _⟩ | (⟨_, hb⟩ | h))
          · exact Option.noConfusion heq
          · exact Bool.noConfusion hb
          · exact Or.inr h
    | some a =>
      rcases a with ⟨s0, n0⟩
      obtain ⟨hw1, hw2⟩ : s0 + n0 = i0 ∧ 1 ≤ n0 := hw
      cases b with
      | true =>
        rw [show runsAux (true :: bs) i0 (some (s0, n0)) =
            runsAux bs (i0 + 1) (some (s0, n0 + 1)) from rfl,
          ih (i0 + 1) (some (s0, n0 + 1)) (by exact ⟨by omega, by omega⟩) j, exists_getD_cons]
        constructor
        · rintro (⟨s1, n1, heq, h1, h2⟩ | h)
          · cases heq
            rcases Nat.lt_or_ge j i0 with hlt | hge
            · exact Or.inl ⟨s0, n0, rfl, h1, hlt⟩
            · exact Or.inr (Or.inl ⟨by omega, rfl⟩)
          · exact Or.inr (Or.inr h)
        · rintro (⟨s1, n1, heq, h1, h2⟩ | (⟨hj, _⟩ | h))
          · cases heq
            exact Or.inl ⟨s0, n0 + 1, rfl, h1, by omega⟩
          · exact Or.inl ⟨s0, n0 + 1, rfl, by omega, by omega⟩
          · exact Or.inr h
      | false =>
        rw [show runsAux (false :: bs) i0 (some (s0, n0)) =
            (s0, n0) :: runsAux bs (i0 + 1) none from rfl]
        have hc : coveredBy ((s0, n0) :: runsAux bs (i0 + 1) none) j = true ↔
            ((s0 ≤ j ∧ j < s0 + n0) ∨ coveredBy (runsAux bs (i0 + 1) none) j = true) := by
          simp [coveredBy]
        rw [hc, ih (i0 + 1) none trivial j, exists_getD_cons]
        constructor
        · rintro (⟨h1, h2⟩ | (⟨s1, n1, heq, _, _⟩ | h))
          · exact Or.inl ⟨s0, n0, rfl, h1, by omega⟩
          · exact Option.noConfusion heq
          · exact Or.inr (Or.inr h)
        · rintro (⟨s1, n1, heq, h1, h2⟩ | (⟨_, hb⟩ | h))
          · cases heq
            exact Or.inl ⟨h1, by omega⟩
          · exact Bool.noConfusion hb
          · exact Or.inr (Or.inr h)

theorem runsAux_pairwise : ∀ (bs : List Bool) (i0 : Nat) (acc : Option (Nat × Nat)),
    AccWf acc i0 →
    List.Pairwise (fun r1 r2 => r1.1 + r1.2 ≤ r2.1) (runsAux bs i0 acc) := by
  intro bs
  induction bs with
  | nil =>
    intro i0 acc hw
    cases acc with
    | none => exact List.Pairwise.nil
    | some a => simp [runsAux]
  | cons b bs ih =>
    intro i0 acc hw
    cases acc with
    | none =>
      cases b with
      | true =>
        rw [show runsAux (true :: bs) i0 none = runsAux bs (i0 + 1) (some (i0, 1)) from rfl]
        exact ih (i0 + 1) (some (i0, 1)) ⟨rfl, le_refl 1⟩
      | false =>
        rw [show runsAux (false :: bs) i0 none = runsAux bs (i0 + 1) none from rfl]
        exact ih (i0 + 1) none trivial
    | some a =>
      rcases a with ⟨s0, n0⟩
      obtain ⟨hw1, hw2⟩ : s0 + n0 = i0 ∧ 1 ≤ n0 := hw
      cases b with
      | true =>
        rw [show runsAux (true :: bs) i0 (some (s0, n0)) =
            runsAux bs (i0 + 1) (some (s0, n0 + 1)) from rfl]
        exact ih (i0 + 1) (some (s0, n0 + 1)) ⟨by omega, by omega⟩
      | false =>
        rw [show runsAux (false :: bs) i0 (some (s0, n0)) =
            (s0, n0) :: runsAux bs (i0 + 1) none from rfl]
        refine List.Pairwise.cons ?_ (ih (i0 + 1) none trivial)
        intro r hr
        have h := runsAux_mem bs (i0 + 1) none trivial r hr
        simp [accLow] at h
        omega

theorem runsAux_total : ∀ (bs : List Bool) (i0 : Nat) (acc : Option (Nat × Nat)),
    totalRuns (runsAux bs i0 acc) = accLen acc + bs.count true := by
  intro bs
  induction bs with
  | nil =>
    intro i0 acc
    cases acc with
    | none => simp [runsAux, totalRuns, accLen]
    | some a => simp [runsAux, totalRuns, accLen]
  | cons b bs ih =>
    intro i0 acc
    cases acc with
    | none =>
      cases b with
      | true =>
        rw [show runsAux (true :: bs) i0 none = runsAux bs (i0 + 1) (some (i0, 1)) from rfl,
          ih (i0 + 1) (some (i0, 1))]
        simp [accLen, List.count_cons]
        omega
      | false =>
        rw [show runsAux (false :: bs) i0 none = runsAux bs (i0 + 1) none from rfl,
          ih (i0 + 1) none]
        simp [accLen, List.count_cons]
    | some a =>
      cases b with
      | true =>
        rw [show runsAux (true :: bs) i0 (some a) =
            runsAux bs (i0 + 1) (some (a.1, a.2 + 1)) from rfl,
          ih (i0 + 1) (some (a.1, a.2 + 1))]
        simp [accLen, List.count_cons]
        omega
      | false =>
        rw [show runsAux (false :: bs) i0 (some a) =
            a :: runsAux bs (i0 + 1) none from rfl]
        have h := ih (i0 + 1) none
        simp [accLen, totalRuns, List.count_cons] at h ⊢
        omega

theorem runsAux_replicate_true :
    ∀ (m : Nat) (i : Nat) (s l : Nat),
    runsAux (List.replicate m true) i (some (s, l)) = [(s, l + m)] := by
  intro m
  induction m with
  | zero => intro i s l; simp [runsAux]
  | succ m ih =>
    intro i s l
    rw [List.replicate_succ,
      show runsAux (true :: List.replicate m true) i (some (s, l)) =
        runsAux (List.replicate m true) (i + 1) (some (s, l + 1)) from rfl, ih]
    simp
    omega

theorem runsAux_replicate_true_none (n i0 : Nat) (hn : 1 ≤ n) :
    runsAux (List.replicate n true) i0 none = [(i0, n)] := by
  cases n with
  | zero => omega
  | succ m =>
    rw [List.replicate_succ,
      show runsAux (true :: List.replicate m true) i0 none =
        runsAux (List.replicate m true) (i0 + 1) (some (i0, 1)) from rfl,
      runsAux_replicate_true]
    simp
    omega

theorem runsAux_all_false : ∀ (bs : List Bool), (∀ b ∈ bs, b = false) →
    ∀ (i0 : Nat), runsAux bs i0 none = [] := by
  intro bs
  induction bs with
  | nil => intro _ i0; simp [runsAux]
  | cons b bs ih =>
    intro hall i0
    have hb : b = false := hall b (by simp)
    subst hb
    rw [show runsAux (false :: bs) i0 none = runsAux bs (i0 + 1) none from rfl]
    exact ih (fun x hx => hall x (by simp [hx])) (i0 + 1)

theorem runsAux_replicate_false (n i0 : Nat) :
    runsAux (List.replicate n false) i0 none = [] := by
  apply runsAux_all_false
  intro b hb
  exact List.eq_of_mem_replicate hb

theorem getD_map_range (n : Nat) (f : Nat → Bool) (k : Nat) (hk : k < n) :
    ((List.range n).map f).getD k false = f k := by
  rw [List.getD_eq_getElem?_getD]
  rw [List.getElem?_map]
  rw [List.getElem?_range hk]
  rfl

theorem getD_drop (l : List Nat) : ∀ (n k : Nat) (d : Nat),
    (l.drop n).getD k d = l.getD (n + k) d := by
  induction l with
  | nil => intro n k d; simp
  | cons a l ih =>
    intro n k d
    cases n with
    | zero => simp
    | succ m =>
      rw [List.drop_succ_cons, ih m k d]
      simp [List.getD_cons_succ]
      rw [show m + 1 + k = (m + k) + 1 by omega]
      simp [List.getD_cons_succ]

theorem getD_zip_eqb (l1 : List Nat) : ∀ (l2 : List Nat) (k : Nat),
    k < l1.length → k < l2.length →
    ((l1.zip l2).map (fun pc => decide (pc.1 = pc.2))).getD k false =
      decide (l1.getD k 0 = l2.getD k 0) := by
  induction l1 with
  | nil => intro l2 k h1 _; simp at h1
  | cons a l1 ih =>
    intro l2 k h1 h2
    cases l2 with
    | nil => simp at h2
    | cons b l2 =>
      cases k with
      | zero => simp
      | succ m =>
        simp only [List.zip_cons_cons, List.map_cons, List.getD_cons_succ]
        exact ih l2 m (by simpa using h1) (by simpa using h2)

theorem zip_self_eqb (a : List Nat) :
    ((a.zip a).map (fun pc => decide (pc.1 = pc.2))) = List.replicate a.length true := by
  induction a with
  | nil => simp
  | cons x a ih => simp [List.replicate_succ, ih]

theorem length_matchBools (prev cur : List Nat) (d : Int) :
    (matchBools prev cur d).2.length =
      if 0 ≤ d then min prev.length (cur.length - d.toNat)
      else min (prev.length - (-d).toNat) cur.length := by
  unfold matchBools
  split
  · simp
  · simp

theorem totalRuns_filter_le (p : Nat × Nat → Bool) (l : List (Nat × Nat)) :
    totalRuns (l.filter p) ≤ totalRuns l := by
  induction l with
  | nil => simp [totalRuns]
  | cons r l ih =>
    by_cases hp : p r = true
    · rw [List.filter_cons_of_pos hp]
      simp [totalRuns] at ih ⊢
      omega
    · rw [List.filter_cons_of_neg (by simpa using hp)]
      simp [totalRuns] at ih ⊢
      omega

theorem seqFrom_length : ∀ (n s : Nat), (seqFrom s n).length = n := by
  intro n
  induction n with
  | zero => intro s; rfl
  | succ m ih => intro s; simp [seqFrom, ih]

theorem seqFrom_getD : ∀ (n s j : Nat), j < n → (seqFrom s n).getD j 0 = s + j := by
  intro n
  induction n with
  | zero => intro s j h; omega
  | succ m ih =>
    intro s j h
    cases j with
    | zero => simp [seqFrom]
    | succ i =>
      simp only [seqFrom, List.getD_cons_succ]
      rw [ih (s + 1) i (by omega)]
      omega

theorem seqFrom_drop : ∀ (n s k : Nat), (seqFrom s n).drop k = seqFrom (s + k) (n - k) := by
  intro n
  induction n with
  | zero => intro s k; simp [seqFrom]
  | succ m ih =>
    intro s k
    cases k with
    | zero => simp [seqFrom]
    | succ t =>
      simp only [seqFrom, List.drop_succ_cons]
      rw [ih (s + 1) t]
      have h1 : s + 1 + t = s + (t + 1) := by omega
      have h2 : m - t = m + 1 - (t + 1) := by omega
      rw [h1, h2]

theorem seqFrom_zip_eqb : ∀ (n : Nat) (s : Nat) (m : Nat) (t : Nat),
    ((seqFrom s n).zip (seqFrom t m)).map (fun pc => decide (pc.1 = pc.2)) =
      List.replicate (min n m) (decide (s = t)) := by
  intro n
  induction n with
  | zero => intro s m t; simp [seqFrom]
  | succ u ih =>
    intro s m t
    cases m with
    | zero => simp [seqFrom]
    | succ v =>
      simp only [seqFrom, List.zip_cons_cons, List.map_cons]
      rw [ih (s + 1) v (t + 1)]
      have hdec : (decide (s + 1 = t + 1)) = (decide (s = t)) :=
        decide_eq_decide.mpr (by omega)
      rw [hdec]
      rw [show min (u + 1) (v + 1) = (min u v) + 1 by omega]
      simp [List.replicate_succ]

theorem seqFrom_not_repeat (n s j : Nat) : isRepeatRow (seqFrom s n) j = false := by
  unfold isRepeatRow
  rw [seqFrom_length]
  rcases Nat.lt_or_ge j n with hj | hj
  · have hgj := seqFrom_getD n s j hj
    have hgp := seqFrom_getD n s (j - 1) (by omega)
    rcases Nat.lt_or_ge (j + 1) n with h2 | h2
    · have hgq := seqFrom_getD n s (j + 1) h2
      rw [hgj, hgp, hgq]
      simp
      omega
    · rw [hgj, hgp]
      simp [Nat.not_lt.mpr h2]
      omega
  · simp [Nat.not_lt.mpr hj]

theorem seqFrom_not_allRepeat (s N e n : Nat) (hn : 1 ≤ n) :
    allRepeatRun (seqFrom s N) e n = false := by
  unfold allRepeatRun
  rw [List.all_eq_false]
  refine ⟨0, ?_, ?_⟩
  · simp
    omega
  · simp [seqFrom_not_repeat]

theorem coveredBy_of_mem (runs : List (Nat × Nat)) (r : Nat × Nat) (i : Nat)
    (hr : r ∈ runs) (hi : RowIn i r) : coveredBy runs i = true := by
  unfold coveredBy
  rw [List.any_eq_true]
  exact ⟨r, hr, by simp [RowIn] at hi ⊢; omega⟩

theorem runsDisjoint_of_sep (r1 r2 : Nat × Nat) (P : Nat → Prop)
    (h1 : ∀ i, RowIn i r1 → P i) (h2 : ∀ i, RowIn i r2 → ¬ P i)
    (n1 : 1 ≤ r1.2) (n2 : 1 ≤ r2.2) : RunsDisjoint r1 r2 := by
  rcases le_or_lt (r1.1 + r1.2) r2.1 with hle | hlt
  · exact Or.inl hle
  rcases le_or_lt (r2.1 + r2.2) r1.1 with hle' | hlt'
  · exact Or.inr hle'
  exfalso
  have hp := h1 (max r1.1 r2.1) ⟨le_max_left _ _, by omega⟩
  exact h2 (max r1.1 r2.1) ⟨le_max_right _ _, by omega⟩ hp

theorem claimRun_mem (c : Nat → Bool) (r r' : Nat × Nat) (h : r' ∈ claimRun c r) :
    1 ≤ r'.2 ∧ SubRunOf r' r := by
  have hm := runsAux_mem ((List.range r.2).map (fun k => !c (r.1 + k))) r.1 none trivial r' h
  simp [accLow] at hm
  exact ⟨hm.1, hm.2.1, by have := hm.2.2; simpa using this⟩

theorem claimRun_unclaimed (c : Nat → Bool) (r r' : Nat × Nat) (h : r' ∈ claimRun c r) :
    ∀ i, RowIn i r' → c i = false := by
  intro i hi
  have hcov : coveredBy (claimRun c r) i = true := coveredBy_of_mem _ r' i h hi
  rw [claimRun,
    runsAux_covered ((List.range r.2).map (fun k => !c (r.1 + k))) r.1 none trivial i] at hcov
  rcases hcov with ⟨s1, n1, heq, _⟩ | ⟨k, hk, hik, hv⟩
  · exact Option.noConfusion heq
  · rw [List.length_map, List.length_range] at hk
    rw [getD_map_range r.2 _ k hk] at hv
    rw [hik]
    simpa using hv

theorem claimRun_dead (c : Nat → Bool) (r : Nat × Nat)
    (h : ∀ i, RowIn i r → c i = true) : claimRun c r = [] := by
  apply runsAux_all_false
  intro b hb
  rw [List.mem_map] at hb
  obtain ⟨k, hk, hbk⟩ := hb
  rw [List.mem_range] at hk
  have := h (r.1 + k) ⟨by omega, by omega⟩
  rw [← hbk, this]
  rfl

theorem markRun_mono (c : Nat → Bool) (r : Nat × Nat) (i : Nat) (h : c i = true) :
    markRun c r i = true := by
  simp [markRun, h]

theorem markRun_row (c : Nat → Bool) (r : Nat × Nat) (i : Nat) (h : RowIn i r) :
    markRun c r i = true := by
  obtain ⟨h1, h2⟩ := h
  simp [markRun, h1, h2]

theorem claimDistance_mono : ∀ (runs : List (Nat × Nat)) (c : Nat → Bool) (i : Nat),
    c i = true → (claimDistance c runs).1 i = true := by
  intro runs
  induction runs with
  | nil => intro c i h; exact h
  | cons r rest ih =>
    intro c i h
    exact ih (markRun c r) i (markRun_mono c r i h)

theorem claimDistance_sub : ∀ (runs : List (Nat × Nat)) (c : Nat → Bool) (r' : Nat × Nat),
    r' ∈ (claimDistance c runs).2 → ∃ r ∈ runs, 1 ≤ r'.2 ∧ SubRunOf r' r := by
  intro runs
  induction runs with
  | nil => intro c r' h; simp [claimDistance] at h
  | cons r rest ih =>
    intro c r' h
    rw [show (claimDistance c (r :: rest)).2 =
      claimRun c r ++ (claimDistance (markRun c r) rest).2 from rfl, List.mem_append] at h
    rcases h with h | h
    · have := claimRun_mem c r r' h
      exact ⟨r, by simp, this.1, this.2⟩
    · obtain ⟨r0, hr0, hp⟩ := ih (markRun c r) r' h
      exact ⟨r0, by simp [hr0], hp⟩

theorem claimDistance_before : ∀ (runs : List (Nat × Nat)) (c : Nat → Bool) (r' : Nat × Nat),
    r' ∈ (claimDistance c runs).2 → ∀ i, RowIn i r' → c i = false := by
  intro runs
  induction runs with
  | nil => intro c r' h; simp [claimDistance] at h
  | cons r rest ih =>
    intro c r' h i hi
    rw [show (claimDistance c (r :: rest)).2 =
      claimRun c r ++ (claimDistance (markRun c r) rest).2 from rfl, List.mem_append] at h
    rcases h with h | h
    · exact claimRun_unclaimed c r r' h i hi
    · have hmark := ih (markRun c r) r' h i hi
      rcases hc : c i with hv | hv
      · rfl
      · exact absurd (markRun_mono c r i hc) (by simp [hmark])

theorem claimDistance_after : ∀ (runs : List (Nat × Nat)) (c : Nat → Bool) (r' : Nat × Nat),
    r' ∈ (claimDistance c runs).2 → ∀ i, RowIn i r' → (claimDistance c runs).1 i = true := by
  intro runs
  induction runs with
  | nil => intro c r' h; simp [claimDistance] at h
  | cons r rest ih =>
    intro c r' h i hi
    rw [show (claimDistance c (r :: rest)).2 =
      claimRun c r ++ (claimDistance (markRun c r) rest).2 from rfl, List.mem_append] at h
    rw [show (claimDistance c (r :: rest)).1 = (claimDistance (markRun c r) rest).1 from rfl]
    rcases h with h | h
    · have hsub := (claimRun_mem c r r' h).2
      have : RowIn i r := by
        obtain ⟨hs, he⟩ := hsub
        obtain ⟨hi1, hi2⟩ := hi
        exact ⟨by omega, by omega⟩
      exact claimDistance_mono rest (markRun c r) i (markRun_row c r i this)
    · exact ih (markRun c r) r' h i hi

theorem claimDistance_pairwise : ∀ (runs : List (Nat × Nat)) (c : Nat → Bool),
    List.Pairwise RunsDisjoint (claimDistance c runs).2 := by
  intro runs
  induction runs with
  | nil => intro c; simp [claimDistance]
  | cons r rest ih =>
    intro c
    rw [show (claimDistance c (r :: rest)).2 =
      claimRun c r ++ (claimDistance (markRun c r) rest).2 from rfl]
    rw [List.pairwise_append]
    refine ⟨?_, ih (markRun c r), ?_⟩
    · have hp := runsAux_pairwise ((List.range r.2).map (fun k => !c (r.1 + k))) r.1 none trivial
      exact hp.imp (fun h => Or.inl h)
    · intro r1 h1 r2 h2
      have hn1 := (claimRun_mem c r r1 h1).1
      obtain ⟨r0, _, hn2, _⟩ := claimDistance_sub rest (markRun c r) r2 h2
      apply runsDisjoint_of_sep r1 r2 (fun i => RowIn i r)
      · intro i hi
        have hsub := (claimRun_mem c r r1 h1).2
        obtain ⟨hs, he⟩ := hsub
        obtain ⟨hi1, hi2⟩ := hi
        exact ⟨by omega, by omega⟩
      · intro i hi hrow
        have := claimDistance_before rest (markRun c r) r2 h2 i hi
        rw [markRun_row c r i hrow] at this
        exact Bool.noConfusion this
      · exact hn1
      · exact hn2

theorem claimDistance_dead : ∀ (runs : List (Nat × Nat)) (c : Nat → Bool),
    (∀ r ∈ runs, ∀ i, RowIn i r → c i = true) → (claimDistance c runs).2 = [] := by
  intro runs
  induction runs with
  | nil => intro c _; rfl
  | cons r rest ih =>
    intro c hall
    rw [show (claimDistance c (r :: rest)).2 =
      claimRun c r ++ (claimDistance (markRun c r) rest).2 from rfl]
    rw [claimRun_dead c r (hall r (by simp))]
    rw [ih (markRun c r) (fun r0 hr0 i hi => markRun_mono c r i (hall r0 (by simp [hr0]) i hi))]
    rfl

theorem claimWalk_cons (c : Nat → Bool) (e : Int × List (Nat × Nat))
    (rest : List (Int × List (Nat × Nat))) :
    claimWalk c (e :: rest) =
      ((claimWalk (claimDistance c e.2).1 rest).1,
        if (claimDistance c e.2).2.isEmpty then (claimWalk (claimDistance c e.2).1 rest).2
        else (e.1, (claimDistance c e.2).2) :: (claimWalk (claimDistance c e.2).1 rest).2) :=
  rfl

theorem claimWalk_mono : ∀ (l : List (Int × List (Nat × Nat))) (c : Nat → Bool) (i : Nat),
    c i = true → (claimWalk c l).1 i = true := by
  intro l
  induction l with
  | nil => intro c i h; exact h
  | cons e rest ih =>
    intro c i h
    rw [claimWalk_cons]
    exact ih (claimDistance c e.2).1 i (claimDistance_mono e.2 c i h)

theorem mem_flatRuns (l : List (Int × List (Nat × Nat))) (r : Nat × Nat) :
    r ∈ flatRuns l ↔ ∃ e ∈ l, r ∈ e.2 := by
  unfold flatRuns
  rw [List.mem_flatten]
  constructor
  · rintro ⟨s, hs, hr⟩
    rw [List.mem_map] at hs
    obtain ⟨e, he, hse⟩ := hs
    exact ⟨e, he, by rw [hse]; exact hr⟩
  · rintro ⟨e, he, hr⟩
    exact ⟨e.2, List.mem_map_of_mem (fun x => x.2) he, hr⟩

theorem flatRuns_cons (e : Int × List (Nat × Nat)) (l : List (Int × List (Nat × Nat))) :
    flatRuns (e :: l) = e.2 ++ flatRuns l := rfl

theorem claimWalk_out_mem : ∀ (l : List (Int × List (Nat × Nat))) (c : Nat → Bool)
    (e' : Int × List (Nat × Nat)), e' ∈ (claimWalk c l).2 →
    ∃ runs, (e'.1, runs) ∈ l ∧ e'.2 ≠ [] ∧
      ∀ r' ∈ e'.2, 1 ≤ r'.2 ∧ ∃ r ∈ runs, SubRunOf r' r := by
  intro l
  induction l with
  | nil => intro c e' h; simp [claimWalk] at h
  | cons e rest ih =>
    intro c e' h
    rw [claimWalk_cons] at h
    by_cases hemp : (claimDistance c e.2).2.isEmpty = true
    · rw [if_pos hemp] at h
      obtain ⟨runs, hmem, hne, hall⟩ := ih (claimDistance c e.2).1 e' h
      exact ⟨runs, by simp [hmem], hne, hall⟩
    · rw [if_neg hemp, List.mem_cons] at h
      rcases h with h | h
      · subst h
        refine ⟨e.2, by simp, by simpa using hemp, ?_⟩
        intro r' hr'
        obtain ⟨r, hr, hn, hsub⟩ := claimDistance_sub e.2 c r' hr'
        exact ⟨hn, r, hr, hsub⟩
      · obtain ⟨runs, hmem, hne, hall⟩ := ih (claimDistance c e.2).1 e' h
        exact ⟨runs, by simp [hmem], hne, hall⟩

theorem claimWalk_before : ∀ (l : List (Int × List (Nat × Nat))) (c : Nat → Bool)
    (r' : Nat × Nat), r' ∈ flatRuns (claimWalk c l).2 →
    ∀ i, RowIn i r' → c i = false := by
  intro l
  induction l with
  | nil => intro c r' h; simp [claimWalk, flatRuns] at h
  | cons e rest ih =>
    intro c r' h i hi
    rw [claimWalk_cons] at h
    have hstep : r' ∈ (claimDistance c e.2).2 ∨ r' ∈ flatRuns (claimWalk (claimDistance c e.2).1 rest).2 := by
      by_cases hemp : (claimDistance c e.2).2.isEmpty = true
      · rw [if_pos hemp] at h
        exact Or.inr h
      · rw [if_neg hemp] at h
        rw [show ((e.1, (claimDistance c e.2).2) :: (claimWalk (claimDistance c e.2).1 rest).2) =
          ((e.1, (claimDistance c e.2).2) :: (claimWalk (claimDistance c e.2).1 rest).2) from rfl] at h
        rw [flatRuns_cons, List.mem_append] at h
        exact h
    rcases hstep with h | h
    · exact claimDistance_before e.2 c r' h i hi
    · have hafter := ih (claimDistance c e.2).1 r' h i hi
      rcases hc : c i with hv | hv
      · rfl
      · exact absurd (claimDistance_mono e.2 c i hc) (by simp [hafter])

theorem claimWalk_after : ∀ (l : List (Int × List (Nat × Nat))) (c : Nat → Bool)
    (r' : Nat × Nat), r' ∈ flatRuns (claimWalk c l).2 →
    ∀ i, RowIn i r' → (claimWalk c l).1 i = true := by
  intro l
  induction l with
  | nil => intro c r' h; simp [claimWalk, flatRuns] at h
  | cons e rest ih =>
    intro c r' h i hi
    rw [claimWalk_cons] at h ⊢
    have hstep : r' ∈ (claimDistance c e.2).2 ∨ r' ∈ flatRuns (claimWalk (claimDistance c e.2).1 rest).2 := by
      by_cases hemp : (claimDistance c e.2).2.isEmpty = true
      · rw [if_pos hemp] at h
        exact Or.inr h
      · rw [if_neg hemp] at h
        rw [flatRuns_cons, List.mem_append] at h
        exact h
    rcases hstep with h | h
    · exact claimWalk_mono rest (claimDistance c e.2).1 i (claimDistance_after e.2 c r' h i hi)
    · exact ih (claimDistance c e.2).1 r' h i hi

theorem claimWalk_run_pos (l : List (Int × List (Nat × Nat))) (c : Nat → Bool)
    (r' : Nat × Nat) (h : r' ∈ flatRuns (claimWalk c l).2) : 1 ≤ r'.2 := by
  rw [mem_flatRuns] at h
  obtain ⟨e', he', hr'⟩ := h
  obtain ⟨runs, _, _, hall⟩ := claimWalk_out_mem l c e' he'
  exact (hall r' hr').1

theorem claimWalk_pairwise : ∀ (l : List (Int × List (Nat × Nat))) (c : Nat → Bool),
    List.Pairwise RunsDisjoint (flatRuns (claimWalk c l).2) := by
  intro l
  induction l with
  | nil => intro c; simp [claimWalk, flatRuns]
  | cons e rest ih =>
    intro c
    rw [claimWalk_cons]
    by_cases hemp : (claimDistance c e.2).2.isEmpty = true
    · rw [if_pos hemp]
      exact ih (claimDistance c e.2).1
    · rw [if_neg hemp, flatRuns_cons, List.pairwise_append]
      refine ⟨claimDistance_pairwise e.2 c, ih (claimDistance c e.2).1, ?_⟩
      intro r1 h1 r2 h2
      obtain ⟨r, hr, hn1, hsub⟩ := claimDistance_sub e.2 c r1 h1
      have hn2 := claimWalk_run_pos rest (claimDistance c e.2).1 r2 h2
      apply runsDisjoint_of_sep r1 r2 (fun i => (claimDistance c e.2).1 i = true)
      · intro i hi
        exact claimDistance_after e.2 c r1 h1 i hi
      · intro i hi hcl
        have := claimWalk_before rest (claimDistance c e.2).1 r2 h2 i hi
        rw [hcl] at this
        exact Bool.noConfusion this
      · exact hn1
      · exact hn2

theorem claimWalk_dead : ∀ (l : List (Int × List (Nat × Nat))) (c : Nat → Bool),
    (∀ e ∈ l, ∀ r ∈ e.2, ∀ i, RowIn i r → c i = true) → (claimWalk c l).2 = [] := by
  intro l
  induction l with
  | nil => intro c _; rfl
  | cons e rest ih =>
    intro c hall
    rw [claimWalk_cons]
    have hde : (claimDistance c e.2).2 = [] :=
      claimDistance_dead e.2 c (fun r hr i hi => hall e (by simp) r hr i hi)
    rw [hde]
    simp only [List.isEmpty_nil, if_true]
    apply ih
    intro e0 he0 r hr i hi
    exact claimDistance_mono e.2 c i (hall e0 (by simp [he0]) r hr i hi)

instance : IsTotal (Int × List (Nat × Nat)) DistLE :=
  ⟨by intro a b; unfold DistLE; omega⟩

instance : IsTrans (Int × List (Nat × Nat)) DistLE :=
  ⟨by intro a b c; unfold DistLE; omega⟩

theorem matchBools_fst (prev cur : List Nat) (d : Int) :
    (matchBools prev cur d).1 = if 0 ≤ d then 0 else (-d).toNat := by
  unfold matchBools
  split
  · rfl
  · rfl

theorem rawRuns_bounds (prev cur : List Nat) (d : Int) (r : Nat × Nat)
    (h : r ∈ rawRuns prev cur d) :
    1 ≤ r.2 ∧ r.1 + r.2 ≤ prev.length ∧
      0 ≤ (r.1 : Int) + d ∧ (r.1 : Int) + d + r.2 ≤ cur.length := by
  have hm := runsAux_mem (matchBools prev cur d).2 (matchBools prev cur d).1 none trivial r h
  rw [length_matchBools, matchBools_fst] at hm
  simp only [accLow] at hm
  rcases le_or_lt 0 d with hd | hd
  · rw [if_pos hd, if_pos hd] at hm
    obtain ⟨h1, h2, h3⟩ := hm
    refine ⟨h1, by omega, by omega, ?_⟩
    omega
  · rw [if_neg (by omega), if_neg (by omega)] at hm
    obtain ⟨h1, h2, h3⟩ := hm
    refine ⟨h1, by omega, by omega, ?_⟩
    omega

theorem runsForDistance_sub (prev cur : List Nat) (d : Int) (r : Nat × Nat)
    (h : r ∈ runsForDistance prev cur d) :
    r ∈ rawRuns prev cur d ∧ MIN_LINE_COUNT ≤ r.2 := by
  unfold runsForDistance at h
  by_cases hd : d = 0
  · rw [if_pos hd] at h
    rw [List.mem_filter] at h
    exact ⟨h.1, by simpa using h.2⟩
  · rw [if_neg hd] at h
    simp only [List.mem_filter] at h
    exact ⟨h.1.1, by simpa using h.1.2⟩

theorem calculate_table (sd : ScrollData) (prev cur : List Nat) (md : Nat)
    (hp : sd.previous = some prev) (hc : sd.current = some cur) :
    (sd.calculate md).matchTable =
      some ((((List.range (2 * min md (sd.h - 1) + 1)).map
          (fun (k : Nat) => (k : Int) - ((min md (sd.h - 1) : Nat) : Int))).map
        (fun d => (d, runsForDistance prev cur d))).filter (fun e => !e.2.isEmpty)) := by
  unfold ScrollData.calculate
  rw [hp, hc]

theorem calculate_table_mem (sd : ScrollData) (prev cur : List Nat) (md : Nat)
    (hp : sd.previous = some prev) (hc : sd.current = some cur)
    (tbl : List (Int × List (Nat × Nat)))
    (ht : (sd.calculate md).matchTable = some tbl)
    (e : Int × List (Nat × Nat)) (he : e ∈ tbl) :
    e.2 = runsForDistance prev cur e.1 := by
  rw [calculate_table sd prev cur md hp hc] at ht
  have htbl := Option.some.inj ht
  subst htbl
  rw [List.mem_filter] at he
  rw [List.mem_map] at he
  obtain ⟨⟨d, hd, hde⟩, _⟩ := he
  rw [← hde]

theorem calculate_h (sd : ScrollData) (md : Nat) : (sd.calculate md).h = sd.h := by
  unfold ScrollData.calculate
  rcases sd.previous with _ | prev
  · rfl
  · rcases sd.current with _ | cur
    · rfl
    · rfl

theorem calculate_prev (sd : ScrollData) (md : Nat) :
    (sd.calculate md).previous = sd.previous := by
  unfold ScrollData.calculate
  rcases sd.previous with _ | prev
  · rfl
  · rcases sd.current with _ | cur
    · rfl
    · rfl

theorem get_scroll_values_eq (sd : ScrollData) (tbl : List (Int × List (Nat × Nat)))
    (ht : sd.matchTable = some tbl) (mh : Nat) :
    sd.get_scroll_values mh =
      (((claimWalk (fun _ => false) (List.insertionSort DistLE tbl)).2.filter
          (fun e => decide (mh ≤ totalRuns e.2))),
        runsAux ((List.range sd.h).map
          (fun i => !(claimWalk (fun _ => false) (List.insertionSort DistLE tbl)).1 i)) 0 none) := by
  unfold ScrollData.get_scroll_values
  rw [ht]

theorem flatten_sublist (l1 l2 : List (List (Nat × Nat))) (h : l1.Sublist l2) :
    l1.flatten.Sublist l2.flatten := by
  induction h with
  | slnil => exact List.Sublist.refl []
  | cons a h ih =>
    rw [List.flatten_cons]
    exact ih.trans (List.sublist_append_right a _)
  | cons₂ a h ih =>
    rw [List.flatten_cons, List.flatten_cons]
    exact List.Sublist.append (List.Sublist.refl a) ih

theorem flatRuns_sublist (l1 l2 : List (Int × List (Nat × Nat))) (h : l1.Sublist l2) :
    (flatRuns l1).Sublist (flatRuns l2) :=
  flatten_sublist _ _ (h.map (fun e => e.2))

/-- Every run reported by `get_scroll_values` after a `calculate` on two
length-`h` frames stays inside the frame on both the source side
(`[s, s+n) ⊆ [0, h)`) and the destination side (`[s+d, s+d+n) ⊆ [0, h)`). -/
theorem scroll_values_bounds (sd : ScrollData) (prev cur : List Nat) (md mh : Nat)
    (hp : sd.previous = some prev) (hc : sd.current = some cur)
    (hlp : prev.length = sd.h) (hlc : cur.length = sd.h) :
    ∀ e ∈ ((sd.calculate md).get_scroll_values mh).1, ∀ r ∈ e.2,
      0 ≤ (r.1 : Int) ∧ r.1 + r.2 ≤ sd.h ∧
        0 ≤ (r.1 : Int) + e.1 ∧ (r.1 : Int) + e.1 + r.2 ≤ sd.h := by
  intro e he r hr
  obtain ⟨tbl, ht⟩ : ∃ tbl, (sd.calculate md).matchTable = some tbl :=
    ⟨_, calculate_table sd prev cur md hp hc⟩
  rw [get_scroll_values_eq (sd.calculate md) tbl ht mh] at he
  simp only at he
  have hew : e ∈ (claimWalk (fun _ => false) (List.insertionSort DistLE tbl)).2 :=
    List.mem_of_mem_filter he
  obtain ⟨runs, hmem, _, hall⟩ :=
    claimWalk_out_mem (List.insertionSort DistLE tbl) (fun _ => false) e hew
  have hmem2 : (e.1, runs) ∈ tbl := (List.mem_insertionSort DistLE).mp hmem
  have hruns : runs = runsForDistance prev cur e.1 :=
    calculate_table_mem sd prev cur md hp hc tbl ht (e.1, runs) hmem2
  obtain ⟨hn, r0, hr0, hsub⟩ := hall r hr
  rw [hruns] at hr0
  obtain ⟨hraw, _⟩ := runsForDistance_sub prev cur e.1 r0 hr0
  obtain ⟨hb1, hb2, hb3, hb4⟩ := rawRuns_bounds prev cur e.1 r0 hraw
  obtain ⟨hs1, hs2⟩ := hsub
  rw [hlp] at hb2
  rw [hlc] at hb4
  refine ⟨by omega, by omega, by omega, by omega⟩

/-- Every row of the frame is covered by at most one run across the
`scrolls` and `non_scrolls` of `get_scroll_values` after a `calculate`:
the emitted runs are pairwise disjoint. -/
theorem scroll_values_disjoint (sd : ScrollData) (prev cur : List Nat) (md mh : Nat)
    (hp : sd.previous = some prev) (hc : sd.current = some cur) :
    List.Pairwise RunsDisjoint
      (flatRuns ((sd.calculate md).get_scroll_values mh).1 ++
        ((sd.calculate md).get_scroll_values mh).2) := by
  obtain ⟨tbl, ht⟩ : ∃ tbl, (sd.calculate md).matchTable = some tbl :=
    ⟨_, calculate_table sd prev cur md hp hc⟩
  rw [get_scroll_values_eq (sd.calculate md) tbl ht mh]
  simp only
  rw [List.pairwise_append]
  refine ⟨?_, ?_, ?_⟩
  · apply List.Pairwise.sublist
    · exact flatRuns_sublist _ _ (List.filter_sublist _)
    · exact claimWalk_pairwise (List.insertionSort DistLE tbl) (fun _ => false)
  · have hp2 := runsAux_pairwise
      ((List.range (sd.calculate md).h).map
        (fun i => !(claimWalk (fun _ => false) (List.insertionSort DistLE tbl)).1 i)) 0 none trivial
    exact hp2.imp (fun h => Or.inl h)
  · intro r1 h1 r2 h2
    have h1' : r1 ∈ flatRuns (claimWalk (fun _ => false) (List.insertionSort DistLE tbl)).2 := by
      rw [mem_flatRuns] at h1 ⊢
      obtain ⟨e, he, hr⟩ := h1
      exact ⟨e, List.mem_of_mem_filter he, hr⟩
    have hn1 := claimWalk_run_pos _ _ r1 h1'
    have hn2 := (runsAux_mem _ 0 none trivial r2 h2).1
    apply runsDisjoint_of_sep r1 r2
      (fun i => (claimWalk (fun _ => false) (List.insertionSort DistLE tbl)).1 i = true)
    · intro i hi
      exact claimWalk_after _ _ r1 h1' i hi
    · intro i hi hcl
      have hcov := coveredBy_of_mem _ r2 i h2 hi
      rw [runsAux_covered _ 0 none trivial i] at hcov
      rcases hcov with ⟨s1, n1, heq, _⟩ | ⟨k, hk, hik, hv⟩
      · exact Option.noConfusion heq
      · rw [List.length_map, List.length_range] at hk
        rw [getD_map_range _ _ k hk] at hv
        rw [hik, Nat.zero_add] at hcl
        rw [hcl] at hv
        exact Bool.noConfusion hv
    · exact hn1
    · exact hn2

theorem matchBools_pos (prev cur : List Nat) (d : Int) (hd : 0 ≤ d) :
    matchBools prev cur d =
      (0, (prev.zip (cur.drop d.toNat)).map (fun pc => decide (pc.1 = pc.2))) := by
  unfold matchBools
  rw [if_pos hd]

theorem matchBools_neg (prev cur : List Nat) (d : Int) (hd : ¬ 0 ≤ d) :
    matchBools prev cur d =
      ((-d).toNat, ((prev.drop (-d).toNat).zip cur).map (fun pc => decide (pc.1 = pc.2))) := by
  unfold matchBools
  rw [if_neg hd]

/-- The raw matcher counts row `i` at distance `d` exactly when the
previous frame's hash at `i` equals the current frame's hash at `i + d`
(over the rows where `i + d` is inside the frame). -/
theorem rawRuns_covered_iff (prev cur : List Nat) (d : Int) (i : Nat)
    (hip : i < prev.length) (hd0 : 0 ≤ (i : Int) + d) (hdc : (i : Int) + d < cur.length) :
    (coveredBy (rawRuns prev cur d) i = true ↔
      prev.getD i 0 = cur.getD ((i : Int) + d).toNat 0) := by
  unfold rawRuns
  rcases le_or_lt 0 d with hd | hd
  · rw [matchBools_pos prev cur d hd]
    simp only
    rw [runsAux_covered _ 0 none trivial i]
    have hlen : ((prev.zip (cur.drop d.toNat)).map (fun pc => decide (pc.1 = pc.2))).length =
        min prev.length (cur.length - d.toNat) := by
      simp
    constructor
    · rintro (⟨s1, n1, heq, _⟩ | ⟨k, hk, hik, hv⟩)
      · exact Option.noConfusion heq
      · have hki : k = i := by omega
        subst hki
        rw [hlen] at hk
        rw [getD_zip_eqb prev (cur.drop d.toNat) k (by omega) (by simp; omega)] at hv
        rw [getD_drop] at hv
        have := of_decide_eq_true hv
        rw [this]
        congr 1
        omega
    · intro hval
      right
      refine ⟨i, ?_, by omega, ?_⟩
      · rw [hlen]
        omega
      · rw [getD_zip_eqb prev (cur.drop d.toNat) i (by omega) (by simp; omega)]
        rw [getD_drop]
        apply decide_eq_true
        rw [hval]
        congr 1
        omega
  · rw [matchBools_neg prev cur d (by omega)]
    simp only
    rw [runsAux_covered _ ((-d).toNat) none trivial i]
    have hlen : (((prev.drop (-d).toNat).zip cur).map (fun pc => decide (pc.1 = pc.2))).length =
        min (prev.length - (-d).toNat) cur.length := by
      simp
    constructor
    · rintro (⟨s1, n1, heq, _⟩ | ⟨k, hk, hik, hv⟩)
      · exact Option.noConfusion heq
      · rw [hlen] at hk
        rw [getD_zip_eqb (prev.drop (-d).toNat) cur k (by simp; omega) (by omega)] at hv
        rw [getD_drop] at hv
        have := of_decide_eq_true hv
        rw [show (-d).toNat + k = i by omega] at this
        rw [this]
        congr 1
        omega
    · intro hval
      right
      refine ⟨i - (-d).toNat, ?_, by omega, ?_⟩
      · rw [hlen]
        omega
      · rw [getD_zip_eqb (prev.drop (-d).toNat) cur (i - (-d).toNat) (by simp; omega) (by omega)]
        rw [getD_drop]
        apply decide_eq_true
        rw [show (-d).toNat + (i - (-d).toNat) = i by omega]
        rw [hval]
        congr 1
        omega

theorem calculate_distances_ok (a1 a2 : List Nat) (mh md : Nat) (hlen : a2.length = a1.length) :
    calculate_distances a1 a2 mh md =
      Except.ok
        (((ScrollData.mk 0 0 1 a1.length (some a1) (some a2) none).calculate md).get_scroll_values mh) := by
  unfold calculate_distances
  rw [show ScrollData.test_update (ScrollData.new 0 0 1 a1.length) (some a1) =
      Except.ok (ScrollData.mk 0 0 1 a1.length none (some a1) none) from by
    simp [ScrollData.test_update, ScrollData.new]]
  simp only [Except.bind]
  rw [show ScrollData.test_update (ScrollData.mk 0 0 1 a1.length none (some a1) none) (some a2) =
      Except.ok (ScrollData.mk 0 0 1 a1.length (some a1) (some a2) none) from by
    simp [ScrollData.test_update, hlen]]

theorem rawRuns_zero_self (a : List Nat) (hn : 1 ≤ a.length) :
    rawRuns a a 0 = [(0, a.length)] := by
  unfold rawRuns
  rw [matchBools_pos a a 0 (le_refl 0)]
  simp only [Int.toNat_zero, List.drop_zero]
  rw [zip_self_eqb]
  exact runsAux_replicate_true_none a.length 0 hn

theorem runsForDistance_zero_self (a : List Nat) (hn : MIN_LINE_COUNT ≤ a.length) :
    runsForDistance a a 0 = [(0, a.length)] := by
  unfold runsForDistance
  rw [if_pos rfl, rawRuns_zero_self a (by unfold MIN_LINE_COUNT at hn; omega)]
  rw [List.filter_cons_of_pos (by simpa using hn)]
  rfl

theorem totalRuns_runsForDistance_le (prev cur : List Nat) (d : Int) :
    totalRuns (runsForDistance prev cur d) ≤ (matchBools prev cur d).2.length := by
  have h1 : totalRuns (rawRuns prev cur d) = (matchBools prev cur d).2.count true := by
    unfold rawRuns
    rw [runsAux_total]
    simp [accLen]
  have h2 : (matchBools prev cur d).2.count true ≤ (matchBools prev cur d).2.length :=
    List.count_le_length true _
  unfold runsForDistance
  by_cases hd : d = 0
  · rw [if_pos hd]
    have := totalRuns_filter_le (fun r => decide (MIN_LINE_COUNT ≤ r.2)) (rawRuns prev cur d)
    omega
  · rw [if_neg hd]
    have ha := totalRuns_filter_le (fun r => !allRepeatRun prev r.1 r.2)
      ((rawRuns prev cur d).filter (fun r => decide (MIN_LINE_COUNT ≤ r.2)))
    have hb := totalRuns_filter_le (fun r => decide (MIN_LINE_COUNT ≤ r.2)) (rawRuns prev cur d)
    omega

theorem totalRuns_nonzero_lt (a : List Nat) (d : Int) (hd : d ≠ 0) (hn : 1 ≤ a.length) :
    totalRuns (runsForDistance a a d) < a.length := by
  have h := totalRuns_runsForDistance_le a a d
  rw [length_matchBools] at h
  rcases le_or_lt 0 d with hdp | hdp
  · rw [if_pos hdp] at h
    have hdt : 1 ≤ d.toNat := by omega
    omega
  · rw [if_neg (by omega)] at h
    have hdt : 1 ≤ (-d).toNat := by omega
    omega

theorem claimRun_full (s n : Nat) (hn : 1 ≤ n) :
    claimRun (fun _ => false) (s, n) = [(s, n)] := by
  show runsAux ((List.range n).map (fun k => !(fun _ : Nat => false) (s + k))) s none = [(s, n)]
  have hb : (List.range n).map (fun k => !(fun _ : Nat => false) (s + k)) =
      List.replicate n true := by
    rw [List.eq_replicate_iff]
    refine ⟨by simp, ?_⟩
    intro b hb
    rw [List.mem_map] at hb
    obtain ⟨k, _, hk⟩ := hb
    rw [← hk]
    rfl
  rw [hb]
  exact runsAux_replicate_true_none n s hn

theorem claimDistance_single (s n : Nat) (hn : 1 ≤ n) :
    claimDistance (fun _ => false) [(s, n)] =
      (markRun (fun _ => false) (s, n), [(s, n)]) := by
  rw [show claimDistance (fun _ => false) [(s, n)] =
      ((claimDistance (markRun (fun _ => false) (s, n)) []).1,
        claimRun (fun _ => false) (s, n) ++ (claimDistance (markRun (fun _ => false) (s, n)) []).2)
    from rfl]
  rw [claimRun_full s n hn]
  rfl

/-- Identity behaviour of the detector: feeding any hash vector of length
at least `MIN_LINE_COUNT + 1` twice makes `get_scroll_values` report the
single scroll `0 ↦ {0 ↦ N}` and an empty `non_scrolls`. -/
theorem identity_state (a : List Nat) (sd : ScrollData) (md mh : Nat)
    (hp : sd.previous = some a) (hc : sd.current = some a) (hh : sd.h = a.length)
    (hN : MIN_LINE_COUNT + 1 ≤ a.length) (hmh : mh ≤ a.length) :
    (sd.calculate md).get_scroll_values mh = ([((0 : Int), [(0, a.length)])], []) := by
  have hN1 : 1 ≤ a.length := by unfold MIN_LINE_COUNT at hN; omega
  have ht := calculate_table sd a a md hp hc
  set D := min md (sd.h - 1) with hD
  set tbl := ((((List.range (2 * D + 1)).map
      (fun (k : Nat) => (k : Int) - ((D : Nat) : Int))).map
    (fun d => (d, runsForDistance a a d))).filter (fun e => !e.2.isEmpty)) with htbl
  have he0 : ((0 : Int), [((0 : Nat), a.length)]) ∈ tbl := by
    rw [htbl]
    rw [List.mem_filter]
    constructor
    · rw [List.mem_map]
      refine ⟨0, ?_, ?_⟩
      · rw [List.mem_map]
        refine ⟨D, ?_, by simp⟩
        rw [List.mem_range]
        omega
      · rw [runsForDistance_zero_self a (by unfold MIN_LINE_COUNT at hN ⊢; omega)]
    · simp
  have hmemtbl : ∀ e ∈ tbl, e.2 = runsForDistance a a e.1 :=
    fun e he => calculate_table_mem sd a a md hp hc tbl ht e he
  rw [get_scroll_values_eq (sd.calculate md) tbl ht mh]
  have hsortmem : ((0 : Int), [((0 : Nat), a.length)]) ∈ List.insertionSort DistLE tbl :=
    (List.mem_insertionSort DistLE).mpr he0
  rcases hs : List.insertionSort DistLE tbl with _ | ⟨e1, rest⟩
  · rw [hs] at hsortmem
    exact absurd hsortmem (List.not_mem_nil _)
  have he1tbl : e1 ∈ tbl := by
    have : e1 ∈ List.insertionSort DistLE tbl := by
      rw [hs]
      exact List.mem_cons_self e1 rest
    exact (List.mem_insertionSort DistLE).mp this
  have he1 : e1 = ((0 : Int), [((0 : Nat), a.length)]) := by
    have h2 := hmemtbl e1 he1tbl
    by_cases hd1 : e1.1 = 0
    · have : e1 = (e1.1, e1.2) := rfl
      rw [this, h2, hd1, runsForDistance_zero_self a (by unfold MIN_LINE_COUNT at hN ⊢; omega)]
    · exfalso
      have htot : totalRuns e1.2 < a.length := by
        rw [h2]
        exact totalRuns_nonzero_lt a e1.1 hd1 hN1
      rw [hs] at hsortmem
      rcases List.mem_cons.mp hsortmem with heq | hmem
      · rw [← heq] at htot
        simp [totalRuns] at htot
      · have hsorted := List.sorted_insertionSort DistLE tbl
        rw [hs] at hsorted
        have hle := (List.pairwise_cons.mp hsorted).1 _ hmem
        unfold DistLE at hle
        have h0 : totalRuns ([((0 : Nat), a.length)]) = a.length := by
          simp [totalRuns]
        rw [h0] at hle
        omega
  subst he1
  rw [claimWalk_cons]
  rw [show (((0 : Int), [((0 : Nat), a.length)]) : Int × List (Nat × Nat)).2 =
    [((0 : Nat), a.length)] from rfl]
  rw [claimDistance_single 0 a.length hN1]
  have hq2 : (claimWalk (markRun (fun _ => false) (0, a.length)) rest).2 = [] := by
    apply claimWalk_dead
    intro e he r hr i hi
    have hetbl : e ∈ tbl := by
      have : e ∈ List.insertionSort DistLE tbl := by
        rw [hs]
        exact List.mem_cons_of_mem _ he
      exact (List.mem_insertionSort DistLE).mp this
    have h2 := hmemtbl e hetbl
    rw [h2] at hr
    obtain ⟨hraw, _⟩ := runsForDistance_sub a a e.1 r hr
    obtain ⟨hb1, hb2, _, _⟩ := rawRuns_bounds a a e.1 r hraw
    obtain ⟨hi1, hi2⟩ := hi
    exact markRun_row _ (0, a.length) i ⟨Nat.zero_le i, by omega⟩
  rw [hq2]
  have hns : runsAux ((List.range (sd.calculate md).h).map
      (fun i => !(claimWalk (markRun (fun _ => false) (0, a.length)) rest).1 i)) 0 none = [] := by
    apply runsAux_all_false
    intro b hb
    rw [List.mem_map] at hb
    obtain ⟨i, hi, hbi⟩ := hb
    rw [List.mem_range, calculate_h, hh] at hi
    have : (claimWalk (markRun (fun _ => false) (0, a.length)) rest).1 i = true :=
      claimWalk_mono rest _ i (markRun_row _ (0, a.length) i ⟨Nat.zero_le i, by omega⟩)
    rw [← hbi, this]
    rfl
  rw [hns]
  have hemp : ([((0 : Nat), a.length)] : List (Nat × Nat)).isEmpty = false := rfl
  rw [hemp]
  simp only [Bool.false_eq_true, if_false]
  have htot : totalRuns [((0 : Nat), a.length)] = a.length := by
    simp [totalRuns]
  rw [List.filter_cons_of_pos (by rw [htot]; exact decide_eq_true hmh)]
  rw [List.filter_nil]

theorem rawRuns_seq_pos (S M N : Nat) (d : Int) (hd : 0 ≤ d) :
    rawRuns (seqFrom S N) (seqFrom M N) d =
      if S = M + d.toNat ∧ 1 ≤ N - d.toNat then [(0, N - d.toNat)] else [] := by
  unfold rawRuns
  rw [matchBools_pos _ _ d hd]
  simp only
  rw [seqFrom_drop, seqFrom_zip_eqb]
  by_cases hsm : S = M + d.toNat
  · rw [decide_eq_true hsm]
    by_cases hlen : 1 ≤ N - d.toNat
    · rw [if_pos ⟨hsm, hlen⟩, show min N (N - d.toNat) = N - d.toNat by omega]
      exact runsAux_replicate_true_none _ 0 hlen
    · rw [if_neg (by omega), show min N (N - d.toNat) = 0 by omega]
      rfl
  · rw [decide_eq_false hsm, if_neg (by omega)]
    exact runsAux_replicate_false _ 0

theorem rawRuns_seq_neg (S M N : Nat) (d : Int) (hd : ¬ 0 ≤ d) :
    rawRuns (seqFrom S N) (seqFrom M N) d =
      if S + (-d).toNat = M ∧ 1 ≤ N - (-d).toNat then
        [((-d).toNat, N - (-d).toNat)] else [] := by
  unfold rawRuns
  rw [matchBools_neg _ _ d hd]
  simp only
  rw [seqFrom_drop, seqFrom_zip_eqb]
  by_cases hsm : S + (-d).toNat = M
  · rw [decide_eq_true hsm]
    by_cases hlen : 1 ≤ N - (-d).toNat
    · rw [if_pos ⟨hsm, hlen⟩, show min (N - (-d).toNat) N = N - (-d).toNat by omega]
      exact runsAux_replicate_true_none _ _ hlen
    · rw [if_neg (by omega), show min (N - (-d).toNat) N = 0 by omega]
      rfl
  · rw [decide_eq_false hsm, if_neg (by omega)]
    exact runsAux_replicate_false _ _

theorem runsForDistance_seq_other (S M N : Nat) (d : Int)
    (hne : d ≠ (S : Int) - (M : Int)) :
    runsForDistance (seqFrom S N) (seqFrom M N) d = [] := by
  have hraw : rawRuns (seqFrom S N) (seqFrom M N) d = [] := by
    rcases le_or_lt 0 d with hd | hd
    · rw [rawRuns_seq_pos S M N d hd]
      rw [if_neg ?_]
      rintro ⟨h1, _⟩
      exact hne (by omega)
    · rw [rawRuns_seq_neg S M N d (by omega)]
      rw [if_neg ?_]
      rintro ⟨h1, _⟩
      exact hne (by omega)
  unfold runsForDistance
  rw [hraw]
  by_cases hd : d = 0
  · rw [if_pos hd]
    rfl
  · rw [if_neg hd]
    rfl

theorem runsForDistance_seq_hit (S M N : Nat) (hSM : S ≤ M)
    (hlen : MIN_LINE_COUNT ≤ S + N - M) :
    runsForDistance (seqFrom S N) (seqFrom M N) ((S : Int) - (M : Int)) =
      [(M - S, S + N - M)] := by
  have hlen2 : 2 ≤ S + N - M := hlen
  by_cases hSM0 : S = M
  · subst hSM0
    have hd0 : (S : Int) - (S : Int) = 0 := by omega
    rw [hd0]
    unfold runsForDistance
    rw [if_pos rfl]
    rw [rawRuns_seq_pos S S N 0 (le_refl 0)]
    rw [if_pos ⟨by omega, by omega⟩]
    rw [List.filter_cons_of_pos (by apply decide_eq_true; show MIN_LINE_COUNT ≤ N - (0 : Int).toNat; unfold MIN_LINE_COUNT; omega)]
    rw [List.filter_nil]
    rw [show N - (0 : Int).toNat = S + N - S by omega, show S - S = 0 by omega]
  · have hlt : S < M := by omega
    have hdneg : ¬ (0 : Int) ≤ (S : Int) - (M : Int) := by omega
    have hdne : (S : Int) - (M : Int) ≠ 0 := by omega
    unfold runsForDistance
    rw [if_neg hdne]
    rw [rawRuns_seq_neg S M N _ hdneg]
    have htn : (-((S : Int) - (M : Int))).toNat = M - S := by omega
    rw [htn]
    rw [if_pos ⟨by omega, by omega⟩]
    rw [List.filter_cons_of_pos (by apply decide_eq_true; show MIN_LINE_COUNT ≤ N - (M - S); unfold MIN_LINE_COUNT; omega)]
    rw [List.filter_nil]
    rw [List.filter_cons_of_pos ?_]
    · rw [List.filter_nil]
      rw [show N - (M - S) = S + N - M by omega]
    · rw [seqFrom_not_allRepeat S N (M - S) (N - (M - S)) (by omega)]
      rfl

theorem runsForDistance_seq_hit_pos (S M N : Nat) (hSM : S ≤ M)
    (hlen : MIN_LINE_COUNT ≤ S + N - M) :
    runsForDistance (seqFrom M N) (seqFrom S N) ((M : Int) - (S : Int)) = [(0, S + N - M)] := by
  have hlen2 : 2 ≤ S + N - M := hlen
  by_cases hSM0 : S = M
  · subst hSM0
    have h := runsForDistance_seq_hit S S N (le_refl S) hlen
    rw [show S - S = 0 by omega] at h
    exact h
  · have hlt : S < M := by omega
    have hdpos : (0 : Int) ≤ (M : Int) - (S : Int) := by omega
    have hdne : (M : Int) - (S : Int) ≠ 0 := by omega
    unfold runsForDistance
    rw [if_neg hdne]
    rw [rawRuns_seq_pos M S N _ hdpos]
    have htn : ((M : Int) - (S : Int)).toNat = M - S := by omega
    rw [htn]
    rw [if_pos ⟨by omega, by omega⟩]
    rw [List.filter_cons_of_pos (by apply decide_eq_true; show MIN_LINE_COUNT ≤ N - (M - S); unfold MIN_LINE_COUNT; omega)]
    rw [List.filter_nil]
    rw [List.filter_cons_of_pos ?_]
    · rw [List.filter_nil]
      rw [show N - (M - S) = S + N - M by omega]
    · rw [seqFrom_not_allRepeat M N 0 (N - (M - S)) (by omega)]
      rfl

theorem filter_map_single (l : List Int) (f : Int → Int × List (Nat × Nat)) (d0 : Int)
    (hcount : l.count d0 = 1)
    (hothers : ∀ d ∈ l, d ≠ d0 → (f d).2.isEmpty = true)
    (hd0 : (f d0).2.isEmpty = false) :
    (l.map f).filter (fun e => !e.2.isEmpty) = [f d0] := by
  induction l with
  | nil => simp at hcount
  | cons a l ih =>
    by_cases ha : a = d0
    · subst ha
      rw [List.map_cons, List.filter_cons_of_pos (by simp [hd0])]
      have hl0 : l.count a = 0 := by
        rw [List.count_cons_self] at hcount
        omega
      have hrest : (l.map f).filter (fun e => !e.2.isEmpty) = [] := by
        rw [List.filter_eq_nil_iff]
        intro e he
        rw [List.mem_map] at he
        obtain ⟨d, hd, hde⟩ := he
        have hdne : d ≠ a := by
          intro hda
          subst hda
          rw [List.count_eq_zero] at hl0
          exact hl0 hd
        rw [← hde]
        simpa using hothers d (by simp [hd]) hdne
      rw [hrest]
    · rw [List.map_cons, List.filter_cons_of_neg (by simp [hothers a (by simp) ha])]
      apply ih
      · rw [List.count_cons_of_ne (fun hh => ha hh.symm)] at hcount
        exact hcount
      · intro d hd hdne
        exact hothers d (by simp [hd]) hdne

theorem ds_count_one (D : Nat) (d0 : Int) (hlo : -((D : Nat) : Int) ≤ d0) (hhi : d0 ≤ ((D : Nat) : Int)) :
    ((List.range (2 * D + 1)).map (fun (k : Nat) => (k : Int) - ((D : Nat) : Int))).count d0 = 1 := by
  have hnodup : ((List.range (2 * D + 1)).map (fun (k : Nat) => (k : Int) - ((D : Nat) : Int))).Nodup := by
    apply List.Nodup.map
    · intro k1 k2 hk
      simp only at hk
      omega
    · exact List.nodup_range _
  have hmem : d0 ∈ (List.range (2 * D + 1)).map (fun (k : Nat) => (k : Int) - ((D : Nat) : Int)) := by
    rw [List.mem_map]
    refine ⟨(d0 + ((D : Nat) : Int)).toNat, ?_, by omega⟩
    rw [List.mem_range]
    omega
  exact List.count_eq_one_of_mem hnodup hmem

theorem seq_table (A B N : Nat) (sd : ScrollData) (md s0 n0 : Nat)
    (hp : sd.previous = some (seqFrom A N)) (hc : sd.current = some (seqFrom B N))
    (hh : sd.h = N) (hmd : min md (N - 1) = N - 1)
    (habs : (A - B) + (B - A) ≤ N - 1)
    (hit : runsForDistance (seqFrom A N) (seqFrom B N) ((A : Int) - (B : Int)) = [(s0, n0)]) :
    (sd.calculate md).matchTable = some [((A : Int) - (B : Int), [(s0, n0)])] := by
  have ht := calculate_table sd (seqFrom A N) (seqFrom B N) md hp hc
  rw [hh, hmd] at ht
  rw [ht]
  congr 1
  have hsingle := filter_map_single
    ((List.range (2 * (N - 1) + 1)).map (fun (k : Nat) => (k : Int) - ((N - 1 : Nat) : Int)))
    (fun d => (d, runsForDistance (seqFrom A N) (seqFrom B N) d))
    ((A : Int) - (B : Int)) ?_ ?_ ?_
  · rw [hsingle]
    exact congrArg (fun rs => [(((A : Int) - (B : Int)), rs)]) hit
  · exact ds_count_one (N - 1) ((A : Int) - (B : Int)) (by omega) (by omega)
  · intro d _ hdne
    show (runsForDistance (seqFrom A N) (seqFrom B N) d).isEmpty = true
    rw [runsForDistance_seq_other A B N d hdne]
    rfl
  · show (runsForDistance (seqFrom A N) (seqFrom B N) ((A : Int) - (B : Int))).isEmpty = false
    rw [hit]
    rfl

theorem gsv_single (sd : ScrollData) (d : Int) (s n mh : Nat)
    (ht : sd.matchTable = some [(d, [(s, n)])]) (hn : 1 ≤ n) (hmh : mh ≤ n) :
    (sd.get_scroll_values mh).1 = [(d, [(s, n)])] := by
  rw [get_scroll_values_eq sd [(d, [(s, n)])] ht mh]
  simp only
  rw [show List.insertionSort DistLE [(d, [(s, n)])] = [(d, [(s, n)])] from rfl]
  rw [claimWalk_cons]
  rw [show ((d, [(s, n)]) : Int × List (Nat × Nat)).2 = [(s, n)] from rfl]
  rw [claimDistance_single s n hn]
  simp only
  rw [show ([(s, n)] : List (Nat × Nat)).isEmpty = false from rfl]
  simp only [Bool.false_eq_true, if_false]
  rw [show (claimWalk (markRun (fun _ => false) (s, n)) []).2 = [] from rfl]
  have htot : totalRuns [(s, n)] = n := by simp [totalRuns]
  rw [List.filter_cons_of_pos (by rw [htot]; exact decide_eq_true hmh)]
  rw [List.filter_nil]

/-- C2 at the driver level: `test_update(a); test_update(a); calculate;
get_scroll_values` yields exactly `scrolls = {0: {0: N}}` and empty
`non_scrolls`. -/
theorem identity_result (a : List Nat) (mh md : Nat)
    (hN : MIN_LINE_COUNT + 1 ≤ a.length) (hmh : mh ≤ a.length) :
    calculate_distances a a mh md = Except.ok ([((0 : Int), [(0, a.length)])], []) := by
  rw [calculate_distances_ok a a mh md rfl]
  rw [identity_state a (ScrollData.mk 0 0 1 a.length (some a) (some a) none) md mh rfl rfl rfl hN hmh]

theorem seq_scroll_result (A B N s0 n0 : Nat)
    (hit : runsForDistance (seqFrom A N) (seqFrom B N) ((A : Int) - (B : Int)) = [(s0, n0)])
    (hn0 : 1 ≤ n0) (habs : (A - B) + (B - A) ≤ N - 1) :
    ∃ ns, calculate_distances (seqFrom A N) (seqFrom B N) 0 (N - 1) =
      Except.ok ([((A : Int) - (B : Int), [(s0, n0)])], ns) := by
  have hlen2 : (seqFrom B N).length = (seqFrom A N).length := by
    rw [seqFrom_length, seqFrom_length]
  rw [calculate_distances_ok _ _ 0 (N - 1) hlen2]
  have hh : (ScrollData.mk 0 0 1 (seqFrom A N).length
      (some (seqFrom A N)) (some (seqFrom B N)) none).h = N := seqFrom_length N A
  have htbl := seq_table A B N
    (ScrollData.mk 0 0 1 (seqFrom A N).length (some (seqFrom A N)) (some (seqFrom B N)) none)
    (N - 1) s0 n0 rfl rfl hh (min_self _) habs hit
  have h1 := gsv_single _ ((A : Int) - (B : Int)) s0 n0 0 htbl hn0 (Nat.zero_le _)
  refine ⟨(((ScrollData.mk 0 0 1 (seqFrom A N).length
    (some (seqFrom A N)) (some (seqFrom B N)) none).calculate (N - 1)).get_scroll_values 0).2, ?_⟩
  rw [← h1]

/-- Scroll arithmetic on the driver: `a1 = [S..S+N)` then `a2 = [M..M+N)`
reports distance `S - M` with run sum `S + N - M`, and the swapped order
reports `M - S` with the same sum. -/
theorem scroll_arithmetic (S M N : Nat) (hSM : S ≤ M) (_hM : MIN_LINE_COUNT ≤ M)
    (hlen : MIN_LINE_COUNT ≤ S + N - M) :
    (∃ ns, calculate_distances (seqFrom S N) (seqFrom M N) 0 (N - 1) =
        Except.ok ([((S : Int) - (M : Int), [(M - S, S + N - M)])], ns)) ∧
    (∃ ns, calculate_distances (seqFrom M N) (seqFrom S N) 0 (N - 1) =
        Except.ok ([((M : Int) - (S : Int), [(0, S + N - M)])], ns)) := by
  have hlen2 : 2 ≤ S + N - M := hlen
  constructor
  · exact seq_scroll_result S M N (M - S) (S + N - M)
      (runsForDistance_seq_hit S M N hSM hlen) (by omega) (by omega)
  · exact seq_scroll_result M S N 0 (S + N - M)
      (runsForDistance_seq_hit_pos S M N hSM hlen) (by omega) (by omega)

theorem count_zip_eqb_swap : ∀ (l1 l2 : List Nat),
    ((l1.zip l2).map (fun pc => decide (pc.1 = pc.2))).count true =
      ((l2.zip l1).map (fun pc => decide (pc.1 = pc.2))).count true := by
  intro l1
  induction l1 with
  | nil => intro l2; cases l2 <;> simp
  | cons a l1 ih =>
    intro l2
    cases l2 with
    | nil => simp
    | cons b l2 =>
      simp only [List.zip_cons_cons, List.map_cons]
      by_cases hab : a = b
      · rw [decide_eq_true hab, decide_eq_true hab.symm,
          List.count_cons, List.count_cons, ih l2]
      · rw [decide_eq_false hab, decide_eq_false (fun hh => hab hh.symm),
          List.count_cons, List.count_cons, ih l2]

/-- Raw-match symmetry: swapping the two ingested frames mirrors the
matcher: the number of row positions matched at distance `d` for
`(a1, a2)` equals the number matched at `-d` for `(a2, a1)`. -/
theorem rawMatchCount_symm (a1 a2 : List Nat) (d : Int) :
    rawMatchCount a1 a2 d = rawMatchCount a2 a1 (-d) := by
  unfold rawMatchCount
  rcases lt_trichotomy d 0 with hd | hd | hd
  · rw [matchBools_neg a1 a2 d (by omega), matchBools_pos a2 a1 (-d) (by omega)]
    simp only
    rw [show (-d).toNat = (-d).toNat from rfl]
    exact count_zip_eqb_swap (a1.drop (-d).toNat) a2
  · subst hd
    rw [show (-(0 : Int)) = 0 from rfl]
    rw [matchBools_pos a1 a2 0 (le_refl 0), matchBools_pos a2 a1 0 (le_refl 0)]
    simp only [Int.toNat_zero, List.drop_zero]
    exact count_zip_eqb_swap a1 a2
  · rw [matchBools_pos a1 a2 d (by omega), matchBools_neg a2 a1 (-d) (by omega)]
    simp only
    rw [neg_neg]
    exact count_zip_eqb_swap a1 (a2.drop d.toNat)

/-- NotReady behaviour: before two frames have been ingested, `calculate`
stores no match table and `get_scroll_values` returns empty structures. -/
theorem notready_empty (x y w h md mh : Nat) (a : List Nat) (md2 mh2 : Nat) :
    (((ScrollData.new x y w h).calculate md).get_scroll_values mh = ([], [])) ∧
    (∀ sd1, (ScrollData.new x y w h).test_update (some a) = Except.ok sd1 →
      ((sd1.calculate md2).get_scroll_values mh2 = ([], []))) := by
  constructor
  · rfl
  · intro sd1 hup
    rw [show (ScrollData.new x y w h).test_update (some a) =
        (if a.length = (ScrollData.new x y w h).h then
          Except.ok (ScrollData.mk (ScrollData.new x y w h).x (ScrollData.new x y w h).y
            (ScrollData.new x y w h).w (ScrollData.new x y w h).h
            (ScrollData.new x y w h).current (some a) (ScrollData.new x y w h).matchTable)
        else Except.error MotionError.InvalidGeometry) from rfl] at hup
    by_cases hlen : a.length = (ScrollData.new x y w h).h
    · rw [if_pos hlen] at hup
      have hsd := Except.ok.inj hup
      rw [← hsd]
      rfl
    · rw [if_neg hlen] at hup
      exact Except.noConfusion hup

/-- `test_update` rejection and atomicity: a length mismatch fails with
`InvalidGeometry`, absent input fails with `InvalidInput`, and a matching
vector atomically shifts `current` into `previous` leaving everything else
unchanged. -/
theorem test_update_spec (sd : ScrollData) (hs : List Nat) :
    (hs.length ≠ sd.h → sd.test_update (some hs) = Except.error MotionError.InvalidGeometry) ∧
    (sd.test_update none = Except.error MotionError.InvalidInput) ∧
    (hs.length = sd.h → sd.test_update (some hs) =
      Except.ok (ScrollData.mk sd.x sd.y sd.w sd.h sd.current (some hs) sd.matchTable)) := by
  refine ⟨?_, rfl, ?_⟩
  · intro hne
    show (if hs.length = sd.h then
        Except.ok (ScrollData.mk sd.x sd.y sd.w sd.h sd.current (some hs) sd.matchTable)
      else Except.error MotionError.InvalidGeometry) = Except.error MotionError.InvalidGeometry
    rw [if_neg hne]
  · intro he
    show (if hs.length = sd.h then
        Except.ok (ScrollData.mk sd.x sd.y sd.w sd.h sd.current (some hs) sd.matchTable)
      else Except.error MotionError.InvalidGeometry) =
      Except.ok (ScrollData.mk sd.x sd.y sd.w sd.h sd.current (some hs) sd.matchTable)
    rw [if_pos he]

end XpraMotion

namespace XpraEncode

/-- `EncodeClient` construction: the empty-filenames check comes first and
raises `ValueError`; with a non-empty sequence construction succeeds and
stores the filenames in the given order. -/
theorem encode_init_spec (opts : EncodeOptions) (fns : List String) :
    (fns = [] → EncodeClient.init opts fns = Except.error PyError.ValueError) ∧
    (fns ≠ [] → ∃ c, EncodeClient.init opts fns = Except.ok c ∧ c.filenames = fns) := by
  constructor
  · intro h
    subst h
    rfl
  · intro h
    unfold EncodeClient.init
    rw [if_neg (by simpa using h)]
    exact ⟨_, rfl, rfl⟩

end XpraEncode

/-- Claim C1, counterexample to the claim as stated: after ingesting
`[3..10]` then `[1..8]`, row `i = 2` is counted by the matcher at distance
`d = 2` (with `0 ≤ i + d < h`), yet the current frame's hash at `i` does
not equal the previous frame's hash at `i + d` — the claim's orientation
of the comparison is the wrong way round. -/
theorem C1_counterexample :
    XpraMotion.coveredBy
      (XpraMotion.rawRuns [3, 4, 5, 6, 7, 8, 9, 10] [1, 2, 3, 4, 5, 6, 7, 8] 2) 2 = true ∧
    (0 : Int) ≤ (2 : Int) + 2 ∧ ((2 : Int) + 2) < 8 ∧
    ¬ (([1, 2, 3, 4, 5, 6, 7, 8] : List Nat).getD 2 0 =
        ([3, 4, 5, 6, 7, 8, 9, 10] : List Nat).getD (((2 : Int) + 2).toNat) 0) := by
  decide

/-- Claim C1 (amended): for every pair of ingested frames and every row
index `i` counted by the matcher at candidate distance `d` (with
`0 ≤ i + d < h`), the match holds exactly when the PREVIOUS frame's
row-hash at `i` equals the CURRENT frame's row-hash at `i + d`; positive
`d` means the content moved toward larger row indices (downward): the row
that was at `i` in the previous frame is now at `i + d`. -/
theorem C1_match_convention (prev cur : List Nat) (d : Int) (i : Nat)
    (hip : i < prev.length) (hd0 : 0 ≤ (i : Int) + d) (hdc : (i : Int) + d < cur.length) :
    (XpraMotion.coveredBy (XpraMotion.rawRuns prev cur d) i = true ↔
      prev.getD i 0 = cur.getD ((i : Int) + d).toNat 0) :=
  XpraMotion.rawRuns_covered_iff prev cur d i hip hd0 hdc

/-- Witness for C1's amended theorem at a concrete input. -/
theorem C1_match_convention_witness :
    ((3 : Nat) < ([3, 4, 5, 6, 7, 8, 9, 10] : List Nat).length ∧
      (0 : Int) ≤ (3 : Int) + 2 ∧ ((3 : Int) + 2) < ([1, 2, 3, 4, 5, 6, 7, 8] : List Nat).length) ∧
    (XpraMotion.coveredBy
        (XpraMotion.rawRuns [3, 4, 5, 6, 7, 8, 9, 10] [1, 2, 3, 4, 5, 6, 7, 8] 2) 3 = true ↔
      ([3, 4, 5, 6, 7, 8, 9, 10] : List Nat).getD 3 0 =
        ([1, 2, 3, 4, 5, 6, 7, 8] : List Nat).getD (((3 : Int) + 2).toNat) 0) :=
  ⟨by decide,
    C1_match_convention [3, 4, 5, 6, 7, 8, 9, 10] [1, 2, 3, 4, 5, 6, 7, 8] 2 3
      (by decide) (by decide) (by decide)⟩

/-- Claim C2: for any hash vector `a` of length `N ≥ MIN_LINE_COUNT + 1`
(in particular any uniform vector), ingesting `a` twice via `test_update`,
then `calculate` and `get_scroll_values`, yields `scrolls` containing
exactly the run `start = 0, length = N` at distance `0`, and empty
`non_scrolls`. -/
theorem C2_identity (a : List Nat) (mh md : Nat)
    (hN : XpraMotion.MIN_LINE_COUNT + 1 ≤ a.length) (hmh : mh ≤ a.length) :
    XpraMotion.calculate_distances a a mh md =
      Except.ok ([((0 : Int), [(0, a.length)])], []) :=
  XpraMotion.identity_result a mh md hN hmh

/-- Witness for C2 on the uniform vector `[7, 7, 7]`. -/
theorem C2_identity_witness :
    (XpraMotion.MIN_LINE_COUNT + 1 ≤ ([7, 7, 7] : List Nat).length ∧
      (0 : Nat) ≤ ([7, 7, 7] : List Nat).length) ∧
    XpraMotion.calculate_distances [7, 7, 7] [7, 7, 7] 0 2 =
      Except.ok ([((0 : Int), [(0, ([7, 7, 7] : List Nat).length)])], []) :=
  ⟨by decide, C2_identity [7, 7, 7] 0 2 (by decide) (by decide)⟩

/-- Claim C3, counterexample to the claim as stated: with `S = 5`,
`M = 2 ≥ MIN_LINE_COUNT` and `N = 10`, the detector does not report
distance `S - M = 3` with run sum `S + N - M = 13` (it reports sum
`N - (S - M) = 7` there); the claimed sum only holds when `S ≤ M`. -/
theorem C3_counterexample :
    XpraMotion.MIN_LINE_COUNT ≤ 2 ∧
    XpraMotion.reportsB (XpraMotion.seqFrom 5 10) (XpraMotion.seqFrom 2 10) 0 9
      (((5 : Nat) : Int) - ((2 : Nat) : Int)) (5 + 10 - 2) = false := by
  decide

/-- Claim C3 (amended): for `a1 = [S, S+1, ..., S+N-1]` ingested first and
`a2 = [M, M+1, ..., M+N-1]` ingested second, with `S ≤ M`,
`M ≥ MIN_LINE_COUNT` and an overlap of at least `MIN_LINE_COUNT` rows
(`MIN_LINE_COUNT ≤ S + N - M`), the detector reports distance `S - M`
whose run lengths sum to `S + N - M`; ingesting the frames in the opposite
order reports distance `M - S` with the same sum. -/
theorem C3_scroll_arithmetic (S M N : Nat) (hSM : S ≤ M)
    (hM : XpraMotion.MIN_LINE_COUNT ≤ M)
    (hlen : XpraMotion.MIN_LINE_COUNT ≤ S + N - M) :
    (∃ ns, XpraMotion.calculate_distances (XpraMotion.seqFrom S N) (XpraMotion.seqFrom M N)
        0 (N - 1) = Except.ok ([((S : Int) - (M : Int), [(M - S, S + N - M)])], ns)) ∧
    (∃ ns, XpraMotion.calculate_distances (XpraMotion.seqFrom M N) (XpraMotion.seqFrom S N)
        0 (N - 1) = Except.ok ([((M : Int) - (S : Int), [(0, S + N - M)])], ns)) :=
  XpraMotion.scroll_arithmetic S M N hSM hM hlen

/-- Witness for C3's amended theorem at `S = 1, M = 3, N = 10`. -/
theorem C3_scroll_arithmetic_witness :
    ((1 : Nat) ≤ 3 ∧ XpraMotion.MIN_LINE_COUNT ≤ 3 ∧
      XpraMotion.MIN_LINE_COUNT ≤ 1 + 10 - 3) ∧
    ((∃ ns, XpraMotion.calculate_distances (XpraMotion.seqFrom 1 10) (XpraMotion.seqFrom 3 10)
        0 (10 - 1) =
        Except.ok ([(((1 : Nat) : Int) - ((3 : Nat) : Int), [(3 - 1, 1 + 10 - 3)])], ns)) ∧
     (∃ ns, XpraMotion.calculate_distances (XpraMotion.seqFrom 3 10) (XpraMotion.seqFrom 1 10)
        0 (10 - 1) =
        Except.ok ([(((3 : Nat) : Int) - ((1 : Nat) : Int), [(0, 1 + 10 - 3)])], ns))) :=
  ⟨by decide, C3_scroll_arithmetic 1 3 10 (by decide) (by decide) (by decide)⟩

/-- Claim C4, counterexample to the claim as stated: for
`a1 = [1, 2, 1, 2]` and `a2 = [3, 1, 2, 4]`, the pair `(a1, a2)` reports
distance `1` with total count `2`, but the swapped pair `(a2, a1)` reports
nothing at distance `-1` — the aggregator's positive-first tie-break and
the row-claiming step make the reported output asymmetric. -/
theorem C4_counterexample :
    XpraMotion.reportsB [1, 2, 1, 2] [3, 1, 2, 4] 0 3 1 2 = true ∧
    XpraMotion.reportsB [3, 1, 2, 4] [1, 2, 1, 2] 0 3 (-1) 2 = false := by
  decide

/-- Claim C4 (amended): swapping the two ingested frames mirrors the raw
matches — for every distance `k`, the number of row positions matched at
`k` for `(a1, a2)` equals the number matched at `-k` for `(a2, a1)`; the
aggregated `scrolls` output need not be symmetric because rows are claimed
greedily and ties prefer positive distances. -/
theorem C4_raw_symmetry (a1 a2 : List Nat) (k : Int) :
    XpraMotion.rawMatchCount a1 a2 k = XpraMotion.rawMatchCount a2 a1 (-k) :=
  XpraMotion.rawMatchCount_symm a1 a2 k

/-- Claim C5: in every result of `get_scroll_values` (after a `calculate`
on two ingested frames), every row index is covered by at most one run
across all entries of `scrolls` and `non_scrolls` together: the emitted
runs are pairwise disjoint. -/
theorem C5_claim_disjoint (sd : XpraMotion.ScrollData) (prev cur : List Nat) (md mh : Nat)
    (hp : sd.previous = some prev) (hc : sd.current = some cur) :
    List.Pairwise XpraMotion.RunsDisjoint
      (XpraMotion.flatRuns ((sd.calculate md).get_scroll_values mh).1 ++
        ((sd.calculate md).get_scroll_values mh).2) :=
  XpraMotion.scroll_values_disjoint sd prev cur md mh hp hc

/-- Witness for C5 at a concrete two-frame state. -/
theorem C5_claim_disjoint_witness :
    ((⟨0, 0, 1, 4, some [1, 2, 3, 4], some [2, 3, 4, 5], none⟩ :
        XpraMotion.ScrollData).previous = some [1, 2, 3, 4]) ∧
    List.Pairwise XpraMotion.RunsDisjoint
      (XpraMotion.flatRuns
          (((⟨0, 0, 1, 4, some [1, 2, 3, 4], some [2, 3, 4, 5], none⟩ :
            XpraMotion.ScrollData).calculate 3).get_scroll_values 0).1 ++
        (((⟨0, 0, 1, 4, some [1, 2, 3, 4], some [2, 3, 4, 5], none⟩ :
          XpraMotion.ScrollData).calculate 3).get_scroll_values 0).2) :=
  ⟨rfl, C5_claim_disjoint _ [1, 2, 3, 4] [2, 3, 4, 5] 3 0 rfl rfl⟩

/-- Claim C6: every triple `(d, s, n)` present in the `scrolls` mapping
returned by `get_scroll_values` satisfies `0 ≤ s`, `s + n ≤ h`,
`0 ≤ s + d` and `s + d + n ≤ h`. -/
theorem C6_scroll_bounds (sd : XpraMotion.ScrollData) (prev cur : List Nat) (md mh : Nat)
    (hp : sd.previous = some prev) (hc : sd.current = some cur)
    (hlp : prev.length = sd.h) (hlc : cur.length = sd.h) :
    ∀ e ∈ ((sd.calculate md).get_scroll_values mh).1, ∀ r ∈ e.2,
      0 ≤ (r.1 : Int) ∧ r.1 + r.2 ≤ sd.h ∧
        0 ≤ (r.1 : Int) + e.1 ∧ (r.1 : Int) + e.1 + r.2 ≤ sd.h :=
  XpraMotion.scroll_values_bounds sd prev cur md mh hp hc hlp hlc

/-- Witness for C6 at a concrete two-frame state. -/
theorem C6_scroll_bounds_witness :
    (([1, 2, 3, 4] : List Nat).length =
      (⟨0, 0, 1, 4, some [1, 2, 3, 4], some [2, 3, 4, 5], none⟩ : XpraMotion.ScrollData).h) ∧
    (∀ e ∈ (((⟨0, 0, 1, 4, some [1, 2, 3, 4], some [2, 3, 4, 5], none⟩ :
          XpraMotion.ScrollData).calculate 3).get_scroll_values 0).1, ∀ r ∈ e.2,
      0 ≤ (r.1 : Int) ∧ r.1 + r.2 ≤ (⟨0, 0, 1, 4, some [1, 2, 3, 4], some [2, 3, 4, 5], none⟩ :
          XpraMotion.ScrollData).h ∧
        0 ≤ (r.1 : Int) + e.1 ∧ (r.1 : Int) + e.1 + r.2 ≤
          (⟨0, 0, 1, 4, some [1, 2, 3, 4], some [2, 3, 4, 5], none⟩ :
            XpraMotion.ScrollData).h) :=
  ⟨rfl, C6_scroll_bounds _ [1, 2, 3, 4] [2, 3, 4, 5] 3 0 rfl rfl rfl rfl⟩

/-- Claim C7: with fewer than two frames ingested, `calculate` and
`get_scroll_values` never fail and return empty structures, both on a
freshly constructed detector and after a single `test_update`. -/
theorem C7_notready_empty (x y w h md mh : Nat) (a : List Nat) (md2 mh2 : Nat) :
    (((XpraMotion.ScrollData.new x y w h).calculate md).get_scroll_values mh = ([], [])) ∧
    (∀ sd1, (XpraMotion.ScrollData.new x y w h).test_update (some a) = Except.ok sd1 →
      ((sd1.calculate md2).get_scroll_values mh2 = ([], []))) :=
  XpraMotion.notready_empty x y w h md mh a md2 mh2

/-- Witness for C7 at a concrete geometry and a single ingested frame. -/
theorem C7_notready_empty_witness :
    (((XpraMotion.ScrollData.new 0 0 1 2).calculate 5).get_scroll_values 2 = ([], [])) ∧
    (((⟨0, 0, 1, 2, none, some [1, 2], none⟩ :
        XpraMotion.ScrollData).calculate 5).get_scroll_values 2 = ([], [])) :=
  ⟨(C7_notready_empty 0 0 1 2 5 2 [1, 2] 5 2).1,
    (C7_notready_empty 0 0 1 2 5 2 [1, 2] 5 2).2
      ⟨0, 0, 1, 2, none, some [1, 2], none⟩ rfl⟩

/-- Claim C8: `test_update` fails deterministically with `InvalidGeometry`
whenever the supplied hash vector's length differs from the constructed
`h`, fails with `InvalidInput` on absent input, and on a matching length
advances the state atomically (`previous ← current; current ← hashes`,
everything else unchanged); on a failure the caller's state is untouched. -/
theorem C8_test_update_atomic (sd : XpraMotion.ScrollData) (hs : List Nat) :
    (hs.length ≠ sd.h →
      sd.test_update (some hs) = Except.error XpraMotion.MotionError.InvalidGeometry) ∧
    (sd.test_update none = Except.error XpraMotion.MotionError.InvalidInput) ∧
    (hs.length = sd.h → sd.test_update (some hs) =
      Except.ok (XpraMotion.ScrollData.mk sd.x sd.y sd.w sd.h sd.current (some hs) sd.matchTable)) :=
  XpraMotion.test_update_spec sd hs

/-- Witness for C8 at concrete states: a mismatched vector, absent input,
and a matching vector. -/
theorem C8_test_update_atomic_witness :
    ((XpraMotion.ScrollData.new 0 0 1 2).test_update (some [1, 2, 3]) =
      Except.error XpraMotion.MotionError.InvalidGeometry) ∧
    ((XpraMotion.ScrollData.new 0 0 1 2).test_update none =
      Except.error XpraMotion.MotionError.InvalidInput) ∧
    ((XpraMotion.ScrollData.new 0 0 1 2).test_update (some [5, 6]) =
      Except.ok (XpraMotion.ScrollData.mk 0 0 1 2 none (some [5, 6]) none)) :=
  ⟨(C8_test_update_atomic (XpraMotion.ScrollData.new 0 0 1 2) [1, 2, 3]).1 (by decide),
    (C8_test_update_atomic (XpraMotion.ScrollData.new 0 0 1 2) [1, 2, 3]).2.1,
    (C8_test_update_atomic (XpraMotion.ScrollData.new 0 0 1 2) [5, 6]).2.2 (by decide)⟩

set_option maxRecDepth 1000000 in
/-- Claim C9: on the regression fixture of two length-136 hash vectors
with bands of the repeated hash 14669207905734636057, after ingesting
both, `calculate(1000)` and `get_scroll_values`, the `non_scrolls` mapping
is non-empty, `get_best_match` returns a line count of at least
`MIN_LINE_COUNT`, and every claimed run satisfies the bounds invariant. -/
theorem C9_csum_regression : XpraMotion.csumCheck = true := by
  decide

/-- Claim C10: constructing an `EncodeClient` with an empty filenames
sequence raises `ValueError` before any other initialization takes place;
with a non-empty sequence, construction stores the filenames in the given
order. -/
theorem C10_encode_init (opts : XpraEncode.EncodeOptions) (fns : List String) :
    (fns = [] → XpraEncode.EncodeClient.init opts fns =
      Except.error XpraEncode.PyError.ValueError) ∧
    (fns ≠ [] → ∃ c, XpraEncode.EncodeClient.init opts fns = Except.ok c ∧
      c.filenames = fns) :=
  XpraEncode.encode_init_spec opts fns

/-- Witness for C10 at a concrete options record, for both the empty and a
non-empty filenames sequence. -/
theorem C10_encode_init_witness :
    (XpraEncode.EncodeClient.init ⟨ "png", 50, 0, -1, 30 ⟩ [] =
      Except.error XpraEncode.PyError.ValueError) ∧
    (∃ c, XpraEncode.EncodeClient.init ⟨ "png", 50, 0, -1, 30 ⟩ [ "a", "b" ] =
      Except.ok c ∧ c.filenames = [ "a", "b" ]) :=
  ⟨(C10_encode_init ⟨ "png", 50, 0, -1, 30 ⟩ []).1 rfl,
    (C10_encode_init ⟨ "png", 50, 0, -1, 30 ⟩ [ "a", "b" ]).2 (by decide)⟩
